import Mathlib

/-!
The topic engine of `server/topic.go`.

A shallow embedding of `Topic` (push, pop, finish, worker reclaim, start-up
replay) together with the collaborators it calls.

Modelling conventions.

* A `*Message` is a `MsgPtr`: the address of a message object together with
  the content of the object.  The writes that `topic.go` makes through such a
  pointer (`msg.State = ...`) reach every queue entry with the same address,
  so a message object queued twice is one object here too.  A message object
  created by the store (`GetMessage`, a walk visit) and passed on to `push`
  gets a new address.
* Each exported operation is one atomic step on the topic state.  A `pop`
  that finds the queue empty parks on `waitingCh` while it holds `mutex`;
  every `Queue.Push` happens under `mutex`, so the queue stays empty while a
  `pop` is parked, and a further `pop` waits at `Lock`.  The next `push`
  completes the rendezvous: the parked `pop` takes the message, marks it,
  returns and unlocks, and a `pop` waiting at `Lock`, if any, takes its place.
  This is the content of `Sync`.
* Log records are not part of the state.
* The queue is a list and `Queue.Push` always succeeds: the error it can
  return (resource exhaustion, which `push` only logs) does not arise.  The
  calls of the store, in contrast, can fail; see `Faults`.
* `Store`, `Queue`, `Message`, `MessageID`, `PendingMsg` are declared outside
  `server/topic.go`; they are modelled below from their interface.
-/

namespace server

/-- Modelled from the spec: `MessageID`, a fixed-width token; only
equality of identifiers is ever used. -/
abbrev MessageID := Nat

/-- Modelled from the spec: the three values of `Message.State`
(`Enqueued`, `Dequeued`, `Finished`), under the constant names used by
`topic.go`. -/
inductive MessageState where
  | MSG_ENQUEUED
  | MSG_DEQUEUED
  | MSG_FINISHED
deriving DecidableEq, Repr

export MessageState (MSG_ENQUEUED MSG_DEQUEUED MSG_FINISHED)

/-- Modelled from the spec: `Message` with the fields `ID`, `Value` (bytes),
`State` and `Created` (a timestamp, here a tick count). -/
structure Message where
  ID : MessageID
  Value : List Nat
  State : MessageState
  Created : Nat
deriving DecidableEq, Repr

/-- Modelled from the spec: a Go `error` value produced by the store.
`ErrNotFound` is the store's answer for an unknown key, `ErrStore n` stands
for any other persistence failure. -/
inductive Error where
  | ErrNotFound
  | ErrStore (code : Nat)
deriving DecidableEq, Repr

/-- Modelled from the spec: `PendingMsg`, the record that worker `WorkerID`
holds message `MessageID` since `PendingAt`. -/
structure PendingMsg where
  WorkerID : String
  MessageID : MessageID
  PendingAt : Nat
deriving DecidableEq, Repr

/-- Modelled from the spec: which calls of the store currently fail.  `walk`
carries the number of records visited before the scan breaks off. -/
structure Faults where
  put : Option Error
  walk : Option (Nat × Error)
  getPending : Option Error
  removePending : Option Error
deriving DecidableEq, Repr

/-- Modelled from the spec: the durable `Store` behind the interface used by
`topic.go`: the stored messages (in scan order), the pending-assignment
records, the current faults, and `puts`, a count of the `PutMessage` calls
received (kept so that "no Put was performed" is observable). -/
structure Store where
  msgs : List Message
  pending : List PendingMsg
  faults : Faults
  puts : Nat
deriving DecidableEq, Repr

/-- Replace the record with the same `ID`, or append a new one. -/
def putList (msg : Message) : List Message → List Message
  | [] => [msg]
  | x :: xs => if x.ID = msg.ID then msg :: xs else x :: putList msg xs

/-- Modelled from the spec: `Store.PutMessage(msg) error`.  A failing call
stores nothing. -/
def Store.PutMessage (st : Store) (msg : Message) : Option Error × Store :=
  match st.faults.put with
  | some e => (some e, { st with puts := st.puts + 1 })
  | none => (none, { st with msgs := putList msg st.msgs, puts := st.puts + 1 })

/-- Modelled from the spec: `Store.GetMessage(id) (*Message, error)`, a point
lookup that fails with the not-found error when no record has that `ID`. -/
def Store.GetMessage (st : Store) (id : MessageID) : Except Error Message :=
  match st.msgs.find? (fun m => decide (m.ID = id)) with
  | some m => Except.ok m
  | none => Except.error Error.ErrNotFound

/-- Visit the records in order, stopping at the first error of `visit`. -/
def walkList {σ : Type} (visit : σ → Message → σ × Option Error) :
    List Message → σ → σ × Option Error
  | [], s => (s, none)
  | m :: ms, s =>
    match visit s m with
    | (s1, some e) => (s1, some e)
    | (s1, none) => walkList visit ms s1

/-- Modelled from the spec: `Store.WalkMessage(visit) error`, the full scan.
The caller's state `σ` is threaded through the visits.  With a `walk` fault
`(k, e)` the scan visits the first `k` records and then returns `e`. -/
def Store.WalkMessage {σ : Type} (st : Store)
    (visit : σ → Message → σ × Option Error) (s : σ) : σ × Option Error :=
  match st.faults.walk with
  | none => walkList visit st.msgs s
  | some (k, e) =>
    match walkList visit (st.msgs.take k) s with
    | (s1, some e1) => (s1, some e1)
    | (s1, none) => (s1, some e)

/-- Modelled from the spec: `Store.GetPendingMsgsInWorker(workerId)`. -/
def Store.GetPendingMsgsInWorker (st : Store) (workerId : String) :
    Except Error (List PendingMsg) :=
  match st.faults.getPending with
  | some e => Except.error e
  | none => Except.ok (st.pending.filter (fun pm => decide (pm.WorkerID = workerId)))

/-- Modelled from the spec: `Store.RemovePendingMsgsInWorker(workerId)`.  A
failing call removes nothing. -/
def Store.RemovePendingMsgsInWorker (st : Store) (workerId : String) :
    Option Error × Store :=
  match st.faults.removePending with
  | some e => (some e, st)
  | none =>
    (none, { st with pending := st.pending.filter (fun pm => !decide (pm.WorkerID = workerId)) })

/-- A `*Message`: the address of a message object and the content of that
object. -/
structure MsgPtr where
  addr : Nat
  obj : Message
deriving DecidableEq, Repr

/-- The pointer after `msg.State = s`. -/
def MsgPtr.setState (msg : MsgPtr) (s : MessageState) : MsgPtr :=
  { msg with obj := { msg.obj with State := s } }

/-- The effect on a list of queued pointers of writing `State = s` into the
object at `addr`: every entry with that address shows the new State. -/
def writeState (addr : Nat) (s : MessageState) (q : List MsgPtr) : List MsgPtr :=
  q.map (fun r => if r.addr = addr then r.setState s else r)

/-- The least number above every address in the list. -/
def supAddr : List MsgPtr → Nat
  | [] => 0
  | r :: q => max (r.addr + 1) (supAddr q)

/-- What `Queue`, `mutex` and `waitingCh` hold together: either no `pop` is
parked, `mutex` is free and the queue has the entries `Queue` (head first);
or a `pop` is parked on `waitingCh` holding `mutex`, the queue is empty, and
`lockWaiters` further calls of `pop` wait at `Lock`. -/
inductive Sync where
  | idle (Queue : List MsgPtr)
  | parked (lockWaiters : Nat)
deriving DecidableEq, Repr

/-- The parked `pop` has received its message, returned and unlocked: with no
`pop` waiting at `Lock` the mutex is free (and the queue still empty);
otherwise one of the waiting calls takes the mutex, finds the queue empty and
parks. -/
def Sync.afterHandOff : Nat → Sync
  | 0 => Sync.idle []
  | k + 1 => Sync.parked k

/-- The state of a `Topic`.  `handedOff` lists the messages sent over
`waitingCh` so far, oldest first, as they were sent; `nextAddr` bounds the
addresses given to message objects created so far. -/
structure Topic where
  Name : String
  PendingTimeout : Nat
  sync : Sync
  handedOff : List MsgPtr
  nextAddr : Nat
  store : Store
deriving DecidableEq, Repr

/-- The content of the field `Queue`, head first. -/
def Topic.Queue (t : Topic) : List MsgPtr :=
  match t.sync with
  | Sync.idle q => q
  | Sync.parked _ => []

/-- Whether a `pop` is parked receiving on `waitingCh`. -/
def Topic.waiting (t : Topic) : Bool :=
  match t.sync with
  | Sync.idle _ => false
  | Sync.parked _ => true

/-- The number of calls of `pop` that wait at `mutex.Lock`. -/
def Topic.lockWaiters (t : Topic) : Nat :=
  match t.sync with
  | Sync.idle _ => 0
  | Sync.parked k => k

/-- The constructor `NewTopic`: an empty queue, nobody waiting, the given store. -/
def NewTopic (name : String) (pendingTimeout : Nat) (store : Store) : Topic :=
  { Name := name, PendingTimeout := pendingTimeout, sync := Sync.idle [],
    handedOff := [], nextAddr := 0, store := store }

/-- A pointer to a new message object with content `m`: its address is in no
queue entry and was given to no earlier new object. -/
def Topic.alloc (t : Topic) (m : Message) : MsgPtr × Topic :=
  ({ addr := max t.nextAddr (supAddr t.Queue), obj := m },
   { t with nextAddr := max t.nextAddr (supAddr t.Queue) + 1 })

/-- The method `Topic.push`: the `select` sends on `waitingCh` when a receiver
is parked there; the parked `pop` then returns and unlocks, and a `pop`
waiting at `Lock` parks in its place.  Otherwise (the `default` case) the
message is appended to the queue under the mutex. -/
def Topic.push (t : Topic) (msg : MsgPtr) : Topic :=
  match t.sync with
  | Sync.parked k => { t with handedOff := t.handedOff ++ [msg], sync := Sync.afterHandOff k }
  | Sync.idle q => { t with sync := Sync.idle (q ++ [msg]) }

/-- What a call of `pop` does: it returns a message, or it does not return
yet (it waits at `Lock` or is parked on `waitingCh`). -/
inductive PopResult where
  | returned (msg : MsgPtr)
  | blocked
deriving DecidableEq, Repr

/-- The method `Topic.pop`.  With another `pop` parked (it holds the mutex)
the call waits at `Lock`.  Otherwise the head of the queue is removed, its
object is marked `MSG_DEQUEUED` (which every other entry for the same object
shows) and it is returned; on an empty queue the call parks on `waitingCh`. -/
def Topic.pop (t : Topic) : PopResult × Topic :=
  match t.sync with
  | Sync.parked k => (PopResult.blocked, { t with sync := Sync.parked (k + 1) })
  | Sync.idle (item :: rest) =>
    (PopResult.returned (item.setState MSG_DEQUEUED),
     { t with sync := Sync.idle (writeState item.addr MSG_DEQUEUED rest) })
  | Sync.idle [] => (PopResult.blocked, { t with sync := Sync.parked 0 })

/-- The `else` branch of `Topic.pop` once the rendezvous on `waitingCh`
completes: the received item is marked `MSG_DEQUEUED` and returned. -/
def Topic.popReceive (item : MsgPtr) : MsgPtr :=
  item.setState MSG_DEQUEUED

/-- The write `msg.State = s` as the queue shows it. -/
def Topic.writeState (t : Topic) (addr : Nat) (s : MessageState) : Topic :=
  match t.sync with
  | Sync.idle q => { t with sync := Sync.idle (server.writeState addr s q) }
  | Sync.parked _ => t

/-- The method `Topic.PushMessage`: mark `MSG_ENQUEUED`, call `PutMessage` (its
error is dropped), then `push`.  The function has no result. -/
def Topic.PushMessage (t : Topic) (msg : MsgPtr) : Topic :=
  let msg1 : MsgPtr := msg.setState MSG_ENQUEUED
  let t1 := t.writeState msg.addr MSG_ENQUEUED
  let r := t1.store.PutMessage msg1.obj
  Topic.push { t1 with store := r.2 } msg1

/-- The method `Topic.FinishMessage`: look the message up, mark it
`MSG_FINISHED`, put it back; either store error is returned.  The message
object it marks is the one `GetMessage` created; no pointer to it is kept. -/
def Topic.FinishMessage (t : Topic) (id : MessageID) : Option Error × Topic :=
  match t.store.GetMessage id with
  | Except.error err => (some err, t)
  | Except.ok msg =>
    let msg1 : Message := { msg with State := MSG_FINISHED }
    let r := t.store.PutMessage msg1
    match r.1 with
    | some err => (some err, { t with store := r.2 })
    | none => (none, { t with store := r.2 })

/-- The call `PushMessage(m)` on the message object `m` that the store has
just created. -/
def Topic.PushMessageNew (t : Topic) (m : Message) : Topic :=
  (t.alloc m).2.PushMessage (t.alloc m).1

/-- The `for _, pm := range pms` loop of `PushPendingMsgsInWorker`, on the
pair of the topic state and the counter `num`. -/
def pushPendingLoop : List PendingMsg → Topic × Nat → Topic × Nat
  | [], s => s
  | pm :: pms, (t, num) =>
    match t.store.GetMessage pm.MessageID with
    | Except.error _ => pushPendingLoop pms (t, num)
    | Except.ok m =>
      if m.State = MSG_DEQUEUED then pushPendingLoop pms (t.PushMessageNew m, num + 1)
      else pushPendingLoop pms (t, num)

/-- The method `Topic.PushPendingMsgsInWorker`, with the logged counter `num`
as second component. -/
def Topic.PushPendingMsgsInWorker (t : Topic) (workerId : String) : Topic × Nat :=
  match t.store.GetPendingMsgsInWorker workerId with
  | Except.error _ => (t, 0)
  | Except.ok pms =>
    let s := pushPendingLoop pms (t, 0)
    let r := s.1.store.RemovePendingMsgsInWorker workerId
    ({ s.1 with store := r.2 }, s.2)

/-- The callback that `Topic.Init` hands to `WalkMessage`; `m` is the message
object the walk created for the record it visits. -/
def initVisit (t : Topic) (m : Message) : Topic × Option Error :=
  (if m.State = MSG_ENQUEUED then (t.alloc m).2.push (t.alloc m).1 else t, none)

/-- The method `Topic.Init`: replay the store into the queue and return the
walk's error.  The dispatch goroutine started before returning acts through
later `pop` and `PushMessage` steps. -/
def Topic.Init (t : Topic) : Option Error × Topic :=
  let r := t.store.WalkMessage initVisit t
  (r.2, r.1)

/-! ## Operation sequences -/

/-- One step of a run of the topic: the four operations of `topic.go` that
touch messages, the start-up replay, and a change of the faults of the store
(the environment). -/
inductive Op where
  | PushMessage (msg : MsgPtr)
  | pop
  | FinishMessage (id : MessageID)
  | PushPendingMsgsInWorker (workerId : String)
  | Init
  | setFaults (f : Faults)
deriving DecidableEq, Repr

/-- The topic state after one step. -/
def Topic.step (t : Topic) : Op → Topic
  | Op.PushMessage msg => t.PushMessage msg
  | Op.pop => t.pop.2
  | Op.FinishMessage id => (t.FinishMessage id).2
  | Op.PushPendingMsgsInWorker workerId => (t.PushPendingMsgsInWorker workerId).1
  | Op.Init => t.Init.2
  | Op.setFaults f => { t with store := { t.store with faults := f } }

/-- The topic state after a sequence of steps. -/
def Topic.run (t : Topic) (ops : List Op) : Topic :=
  ops.foldl Topic.step t

/-- The step is a `PushMessage` on a message object that is in the queue at
that moment. -/
def Topic.repushes (t : Topic) : Op → Bool
  | Op.PushMessage msg => t.Queue.any (fun r => decide (r.addr = msg.addr))
  | _ => false

/-- No `PushMessage` of the run is given a message object that is in the
queue when the call is made. -/
def noRepush : Topic → List Op → Bool
  | _, [] => true
  | t, op :: ops => !t.repushes op && noRepush (t.step op) ops

/-- Push the messages one after the other with `PushMessage`. -/
def pushAll (t : Topic) (msgs : List MsgPtr) : Topic :=
  msgs.foldl Topic.PushMessage t

/-- Call `pop` up to `n` times in a row, collecting the returned messages; the
run stops at the first call that does not return. -/
def popN : Nat → Topic → List MsgPtr × Topic
  | 0, t => ([], t)
  | n + 1, t =>
    match t.pop with
    | (PopResult.returned m, t1) => (m :: (popN n t1).1, (popN n t1).2)
    | (PopResult.blocked, t1) => ([], t1)

/-- The stored `State` of the message `id`, if the store has it. -/
def Store.stateOf (st : Store) (id : MessageID) : Option MessageState :=
  match st.GetMessage id with
  | Except.ok m => some m.State
  | Except.error _ => none

/-- The scan of the store reaches every stored record: it has no fault, or
the fault strikes only after the last record. -/
def Store.walkVisitsAll (st : Store) : Bool :=
  match st.faults.walk with
  | none => true
  | some (k, _) => decide (st.msgs.length ≤ k)

/-- Every message in the queue, and every message sent over `waitingCh`, has
State `MSG_ENQUEUED`, and no message object is in the queue twice. -/
def AllEnqueued (t : Topic) : Prop :=
  (∀ r ∈ t.Queue, r.obj.State = MSG_ENQUEUED) ∧
  (∀ r ∈ t.handedOff, r.obj.State = MSG_ENQUEUED) ∧
  (t.Queue.map MsgPtr.addr).Nodup

/-! ## Fixtures -/

/-- A store without faults. -/
def noFaults : Faults :=
  { put := none, walk := none, getPending := none, removePending := none }

/-- Three sample messages, one per state. -/
def msgA : Message := { ID := 1, Value := [106, 111, 98], State := MSG_ENQUEUED, Created := 10 }

/-- A message a worker holds. -/
def msgB : Message := { ID := 2, Value := [66], State := MSG_DEQUEUED, Created := 11 }

/-- A message already acknowledged. -/
def msgC : Message := { ID := 3, Value := [], State := MSG_FINISHED, Created := 12 }

/-- A store holding the three sample messages; worker `w1` has two
assignments naming `msgB`, one naming `msgA`, one naming `msgC` and one naming
a missing message; worker `w2` has one naming `msgB`. -/
def sampleStore : Store :=
  { msgs := [msgA, msgB, msgC],
    pending := [⟨"w1", 2, 20⟩, ⟨"w1", 1, 21⟩, ⟨"w2", 2, 22⟩, ⟨"w1", 2, 23⟩,
                ⟨"w1", 3, 24⟩, ⟨"w1", 9, 25⟩],
    faults := noFaults, puts := 0 }

/-- A topic on the sample store. -/
def sampleTopic : Topic := NewTopic "jobs" 30 sampleStore

/-- A new message, not yet stored. -/
def msgD : Message := { ID := 4, Value := [1, 2], State := MSG_ENQUEUED, Created := 13 }

/-- A pointer a caller holds, to a message object with the content of `msgB`. -/
def ptrB : MsgPtr := { addr := 101, obj := msgB }

/-- A pointer to an object with the content of `msgC`. -/
def ptrC : MsgPtr := { addr := 102, obj := msgC }

/-- A pointer to an object with the content of `msgD`. -/
def ptrD : MsgPtr := { addr := 103, obj := msgD }

/-- A store of four records whose scan reports an error after the fourth. -/
def walkFaultStore : Store :=
  { sampleStore with
    msgs := [msgA, msgB, msgC, msgD],
    faults := { noFaults with walk := some (4, Error.ErrStore 9) } }

/-- A topic whose store rejects the removal of pending assignments. -/
def removeFaultTopic : Topic :=
  NewTopic "jobs" 30
    { sampleStore with faults := { noFaults with removePending := some (Error.ErrStore 7) } }

/-- A topic whose store rejects every Put. -/
def faultyTopic : Topic :=
  NewTopic "jobs" 30 { sampleStore with faults := { noFaults with put := some (Error.ErrStore 5) } }

/-! ## The store -/

theorem find_putList_same (msg : Message) (l : List Message) :
    (putList msg l).find? (fun m => decide (m.ID = msg.ID)) = some msg := by
  induction l with
  | nil => simp [putList]
  | cons x xs ih =>
    by_cases h : x.ID = msg.ID
    · simp [putList, h]
    · simp [putList, h, List.find?_cons, ih]

theorem find_putList_other (msg : Message) (l : List Message) (id : MessageID)
    (h : id ≠ msg.ID) :
    (putList msg l).find? (fun m => decide (m.ID = id)) =
      l.find? (fun m => decide (m.ID = id)) := by
  induction l with
  | nil => simp [putList, List.find?_cons, Ne.symm h]
  | cons x xs ih =>
    by_cases hx : x.ID = msg.ID
    · have hx1 : ¬ x.ID = id := fun e => h (e.symm.trans hx)
      simp [putList, hx, List.find?_cons, hx1, Ne.symm h]
    · by_cases hid : x.ID = id
      · subst hid
        simp [putList, hx, List.find?_cons]
      · simp [putList, hx, List.find?_cons, hid, ih]

theorem get_ok_id (st : Store) (id : MessageID) (m : Message)
    (h : st.GetMessage id = Except.ok m) : m.ID = id := by
  unfold Store.GetMessage at h
  split at h
  · next m1 hf =>
    have := List.find?_some hf
    simp only [Except.ok.injEq] at h
    subst h
    simpa using this
  · cases h

theorem get_absent (st : Store) (id : MessageID) (h : ∀ m ∈ st.msgs, m.ID ≠ id) :
    st.GetMessage id = Except.error Error.ErrNotFound := by
  unfold Store.GetMessage
  have : st.msgs.find? (fun m => decide (m.ID = id)) = none := by
    rw [List.find?_eq_none]
    intro m hm
    simpa using h m hm
  rw [this]

theorem put_ok_iff (st : Store) (msg : Message) :
    (st.PutMessage msg).1 = none ↔ st.faults.put = none := by
  unfold Store.PutMessage
  cases st.faults.put <;> simp

theorem get_put_same (st : Store) (msg : Message) (h : st.faults.put = none) :
    (st.PutMessage msg).2.GetMessage msg.ID = Except.ok msg := by
  simp [Store.PutMessage, h, Store.GetMessage, find_putList_same]

theorem get_put_other (st : Store) (msg : Message) (id : MessageID) (h : id ≠ msg.ID) :
    (st.PutMessage msg).2.GetMessage id = st.GetMessage id := by
  unfold Store.PutMessage
  cases st.faults.put with
  | some e => simp [Store.GetMessage]
  | none => simp [Store.GetMessage, find_putList_other msg st.msgs id h]

theorem get_put_fault (st : Store) (msg : Message) (id : MessageID) (e : Error)
    (h : st.faults.put = some e) :
    (st.PutMessage msg).2.GetMessage id = st.GetMessage id := by
  simp [Store.PutMessage, h, Store.GetMessage]

theorem put_pending (st : Store) (msg : Message) :
    (st.PutMessage msg).2.pending = st.pending := by
  unfold Store.PutMessage
  cases st.faults.put <;> rfl

theorem put_faults (st : Store) (msg : Message) :
    (st.PutMessage msg).2.faults = st.faults := by
  unfold Store.PutMessage
  cases st.faults.put <;> rfl

/-! ## `FinishMessage` -/

theorem finish_store (t : Topic) (id : MessageID) (m : Message)
    (hget : t.store.GetMessage id = Except.ok m) :
    t.FinishMessage id =
      ((t.store.PutMessage { m with State := MSG_FINISHED }).1,
        { t with store := (t.store.PutMessage { m with State := MSG_FINISHED }).2 }) := by
  simp only [Topic.FinishMessage, hget]
  cases (t.store.PutMessage { m with State := MSG_FINISHED }).1 <;> rfl

theorem finish_error (t : Topic) (id : MessageID) (e : Error)
    (hget : t.store.GetMessage id = Except.error e) :
    t.FinishMessage id = (some e, t) := by
  simp only [Topic.FinishMessage, hget]

theorem finish_pending (t : Topic) (id : MessageID) :
    (t.FinishMessage id).2.store.pending = t.store.pending := by
  cases hg : t.store.GetMessage id with
  | error e => rw [finish_error t id e hg]
  | ok m => rw [finish_store t id m hg]; exact put_pending _ _

theorem finish_faults (t : Topic) (id : MessageID) :
    (t.FinishMessage id).2.store.faults = t.store.faults := by
  cases hg : t.store.GetMessage id with
  | error e => rw [finish_error t id e hg]
  | ok m => rw [finish_store t id m hg]; exact put_faults _ _

theorem finish_queue (t : Topic) (id : MessageID) :
    (t.FinishMessage id).2.sync = t.sync ∧
    (t.FinishMessage id).2.handedOff = t.handedOff ∧
    (t.FinishMessage id).2.nextAddr = t.nextAddr := by
  cases hg : t.store.GetMessage id with
  | error e => rw [finish_error t id e hg]; exact ⟨rfl, rfl, rfl⟩
  | ok m => rw [finish_store t id m hg]; exact ⟨rfl, rfl, rfl⟩

/-- C1: when the message `id` is in the store and the store's Put of the
finished message succeeds, `FinishMessage id` returns no error; afterwards the
store's record for `id` has State `MSG_FINISHED` and the ID, Value and Created
it had before, and the lookup of every other ID gives what it gave before. -/
theorem C1_FinishMessage_present (t : Topic) (id : MessageID) (m : Message)
    (hget : t.store.GetMessage id = Except.ok m)
    (hput : (t.store.PutMessage { m with State := MSG_FINISHED }).1 = none) :
    (t.FinishMessage id).1 = none ∧
    (∃ m1, (t.FinishMessage id).2.store.GetMessage id = Except.ok m1 ∧
      m1.State = MSG_FINISHED ∧ m1.ID = m.ID ∧ m1.ID = id ∧
      m1.Value = m.Value ∧ m1.Created = m.Created) ∧
    (∀ id1, id1 ≠ id →
      (t.FinishMessage id).2.store.GetMessage id1 = t.store.GetMessage id1) := by
  have hid := get_ok_id t.store id m hget
  have hf := (put_ok_iff t.store { m with State := MSG_FINISHED }).1 hput
  rw [finish_store t id m hget]
  refine ⟨hput, ⟨{ m with State := MSG_FINISHED }, ?_, rfl, rfl, hid, rfl, rfl⟩, ?_⟩
  · have := get_put_same t.store { m with State := MSG_FINISHED } hf
    simpa [hid] using this
  · intro id1 hne
    exact get_put_other t.store _ id1 (by simpa [hid] using hne)

/-- C1 at the sample topic: message 1 is stored there and the Put succeeds. -/
theorem C1_FinishMessage_present_witness :
    sampleTopic.store.GetMessage 1 = Except.ok msgA ∧
    (sampleTopic.store.PutMessage { msgA with State := MSG_FINISHED }).1 = none ∧
    (sampleTopic.FinishMessage 1).1 = none :=
  ⟨rfl, rfl, (C1_FinishMessage_present sampleTopic 1 msgA rfl rfl).1⟩

/-- C2: when no stored message has the ID `id`, the store's lookup reports
not-found, `FinishMessage id` returns that error, and the topic state (the
store with its Put count, the queue, the hand-off log) is what it was. -/
theorem C2_FinishMessage_absent (t : Topic) (id : MessageID)
    (habs : ∀ m ∈ t.store.msgs, m.ID ≠ id) :
    t.store.GetMessage id = Except.error Error.ErrNotFound ∧
    t.FinishMessage id = (some Error.ErrNotFound, t) := by
  have hg := get_absent t.store id habs
  exact ⟨hg, finish_error t id _ hg⟩

/-- C2 at the sample topic: no stored message has the ID 7. -/
theorem C2_FinishMessage_absent_witness :
    sampleTopic.store.GetMessage 7 = Except.error Error.ErrNotFound ∧
    sampleTopic.FinishMessage 7 = (some Error.ErrNotFound, sampleTopic) :=
  C2_FinishMessage_absent sampleTopic 7 (by decide)

/-- C10 as stated fails: worker `w1` holds an assignment naming message 2;
`FinishMessage 2` succeeds and stores State `MSG_FINISHED`, yet the store still
holds that assignment afterwards. -/
theorem C10_counterexample :
    (⟨"w1", 2, 20⟩ : PendingMsg) ∈ sampleTopic.store.pending ∧
    (sampleTopic.FinishMessage 2).1 = none ∧
    (sampleTopic.FinishMessage 2).2.store.stateOf 2 = some MSG_FINISHED ∧
    (⟨"w1", 2, 20⟩ : PendingMsg) ∈ (sampleTopic.FinishMessage 2).2.store.pending := by
  decide

/-- C10, amended: `FinishMessage` leaves the pending assignments of the store
exactly as they were, whatever its outcome; in particular the assignments
naming the finished message are all still there. -/
theorem C10_FinishMessage_keeps_pending (t : Topic) (id : MessageID) :
    (t.FinishMessage id).2.store.pending = t.store.pending ∧
    (t.FinishMessage id).2.store.GetPendingMsgsInWorker =
      t.store.GetPendingMsgsInWorker ∧
    (∀ pm, (pm ∈ (t.FinishMessage id).2.store.pending ∧ pm.MessageID = id) ↔
      (pm ∈ t.store.pending ∧ pm.MessageID = id)) := by
  have h := finish_pending t id
  refine ⟨h, ?_, fun pm => by rw [h]⟩
  funext w
  simp only [Store.GetPendingMsgsInWorker, h, finish_faults]

/-! ## Pointers and the queue -/

theorem writeState_of_not_mem (addr : Nat) (s : MessageState) (q : List MsgPtr)
    (h : ∀ r ∈ q, r.addr ≠ addr) : writeState addr s q = q := by
  induction q with
  | nil => rfl
  | cons r q ih =>
    have h1 : r.addr ≠ addr := h r (List.mem_cons_self _ _)
    have h2 := ih (fun r1 hr1 => h r1 (List.mem_cons_of_mem _ hr1))
    unfold writeState at h2 ⊢
    rw [List.map_cons, if_neg h1, h2]

theorem writeState_addr (addr : Nat) (s : MessageState) (q : List MsgPtr) :
    (writeState addr s q).map MsgPtr.addr = q.map MsgPtr.addr := by
  induction q with
  | nil => rfl
  | cons r q ih =>
    unfold writeState at ih ⊢
    rw [List.map_cons, List.map_cons, List.map_cons, ih]
    by_cases h : r.addr = addr
    · rw [if_pos h]; rfl
    · rw [if_neg h]

theorem writeState_length (addr : Nat) (s : MessageState) (q : List MsgPtr) :
    (writeState addr s q).length = q.length := by
  unfold writeState
  rw [List.length_map]

theorem writeState_setState (addr : Nat) (s s1 : MessageState) (q : List MsgPtr) :
    (writeState addr s q).map (fun r => r.setState s1) = q.map (fun r => r.setState s1) := by
  induction q with
  | nil => rfl
  | cons r q ih =>
    unfold writeState at ih ⊢
    rw [List.map_cons, List.map_cons, List.map_cons, ih]
    by_cases h : r.addr = addr
    · rw [if_pos h]; rfl
    · rw [if_neg h]

theorem writeState_getElem_other (addr : Nat) (s : MessageState) (q : List MsgPtr)
    (i : Nat) (r : MsgPtr) (hi : q[i]? = some r) (hr : r.addr ≠ addr) :
    (writeState addr s q)[i]? = some r := by
  unfold writeState
  rw [List.getElem?_map, hi]
  simp [hr]

theorem writeState_getElem_same (addr : Nat) (s : MessageState) (q : List MsgPtr)
    (i : Nat) (r : MsgPtr) (hi : q[i]? = some r) (hr : r.addr = addr) :
    (writeState addr s q)[i]? = some (r.setState s) := by
  unfold writeState
  rw [List.getElem?_map, hi]
  simp [hr]

theorem lt_supAddr (q : List MsgPtr) : ∀ r ∈ q, r.addr < supAddr q := by
  induction q with
  | nil => intro r hr; cases hr
  | cons r0 q ih =>
    intro r hr
    rcases List.mem_cons.1 hr with rfl | hr
    · simp only [supAddr]; omega
    · have := ih r hr
      simp only [supAddr]; omega

theorem alloc_fresh (t : Topic) (m : Message) :
    ∀ r ∈ t.Queue, r.addr ≠ (t.alloc m).1.addr := by
  intro r hr
  have := lt_supAddr t.Queue r hr
  simp only [Topic.alloc]
  omega

theorem waiting_false (t : Topic) (h : t.waiting = false) : t.sync = Sync.idle t.Queue := by
  unfold Topic.waiting at h
  unfold Topic.Queue
  cases hs : t.sync with
  | idle q => rfl
  | parked k => rw [hs] at h; cases h

theorem waiting_true (t : Topic) (h : t.waiting = true) :
    t.sync = Sync.parked t.lockWaiters ∧ t.Queue = [] := by
  unfold Topic.waiting at h
  unfold Topic.Queue Topic.lockWaiters
  cases hs : t.sync with
  | idle q => rw [hs] at h; cases h
  | parked k => exact ⟨rfl, rfl⟩

/-! ## `push` and `PushMessage` -/

theorem push_idle (t : Topic) (q : List MsgPtr) (msg : MsgPtr) (hs : t.sync = Sync.idle q) :
    t.push msg = { t with sync := Sync.idle (q ++ [msg]) } := by
  simp only [Topic.push, hs]

theorem push_parked (t : Topic) (k : Nat) (msg : MsgPtr) (hs : t.sync = Sync.parked k) :
    t.push msg =
      { t with handedOff := t.handedOff ++ [msg], sync := Sync.afterHandOff k } := by
  simp only [Topic.push, hs]

theorem push_store (t : Topic) (msg : MsgPtr) : (t.push msg).store = t.store := by
  unfold Topic.push
  split <;> rfl

theorem PushMessage_store (t : Topic) (msg : MsgPtr) :
    (t.PushMessage msg).store = (t.store.PutMessage { msg.obj with State := MSG_ENQUEUED }).2 := by
  simp only [Topic.PushMessage, push_store]
  unfold Topic.writeState
  split <;> rfl

theorem PushMessage_idle (t : Topic) (q : List MsgPtr) (msg : MsgPtr)
    (hs : t.sync = Sync.idle q) :
    t.PushMessage msg =
      { t with
        sync := Sync.idle (writeState msg.addr MSG_ENQUEUED q ++ [msg.setState MSG_ENQUEUED]),
        store := (t.store.PutMessage { msg.obj with State := MSG_ENQUEUED }).2 } := by
  simp only [Topic.PushMessage, Topic.writeState, hs, Topic.push]
  rfl

theorem PushMessage_parked (t : Topic) (k : Nat) (msg : MsgPtr)
    (hs : t.sync = Sync.parked k) :
    t.PushMessage msg =
      { t with
        handedOff := t.handedOff ++ [msg.setState MSG_ENQUEUED],
        sync := Sync.afterHandOff k,
        store := (t.store.PutMessage { msg.obj with State := MSG_ENQUEUED }).2 } := by
  simp only [Topic.PushMessage, Topic.writeState, hs, Topic.push]
  rfl

theorem PushMessage_not_waiting (t : Topic) (msg : MsgPtr) (h : t.waiting = false) :
    (t.PushMessage msg).sync =
      Sync.idle (writeState msg.addr MSG_ENQUEUED t.Queue ++ [msg.setState MSG_ENQUEUED]) ∧
    (t.PushMessage msg).handedOff = t.handedOff ∧
    (t.PushMessage msg).nextAddr = t.nextAddr ∧
    (t.PushMessage msg).Name = t.Name ∧
    (t.PushMessage msg).PendingTimeout = t.PendingTimeout := by
  rw [PushMessage_idle t t.Queue msg (waiting_false t h)]
  exact ⟨rfl, rfl, rfl, rfl, rfl⟩

theorem PushMessage_waiting (t : Topic) (msg : MsgPtr) (h : t.waiting = true) :
    (t.PushMessage msg).handedOff = t.handedOff ++ [msg.setState MSG_ENQUEUED] ∧
    (t.PushMessage msg).Queue = [] ∧
    (t.lockWaiters = 0 → (t.PushMessage msg).waiting = false) ∧
    (0 < t.lockWaiters → (t.PushMessage msg).waiting = true ∧
      (t.PushMessage msg).lockWaiters + 1 = t.lockWaiters) := by
  obtain ⟨hs, _⟩ := waiting_true t h
  rw [PushMessage_parked t t.lockWaiters msg hs]
  cases hk : t.lockWaiters with
  | zero => exact ⟨rfl, rfl, fun _ => rfl, fun h0 => absurd h0 (by omega)⟩
  | succ k1 => exact ⟨rfl, rfl, fun h0 => (by cases h0), fun _ => ⟨rfl, rfl⟩⟩

/-- C3, what the code does: when the store's Put fails, `PushMessage` goes on
all the same.  With nobody waiting the message is appended to the queue, with
a consumer waiting it is handed to that consumer; the store keeps its old
content, and `PushMessage` has no result through which the error could reach
the caller (its value is the next topic state alone). -/
theorem C3_PushMessage_put_fails (t : Topic) (msg : MsgPtr) (e : Error)
    (hput : (t.store.PutMessage { msg.obj with State := MSG_ENQUEUED }).1 = some e) :
    (t.waiting = false →
      (t.PushMessage msg).Queue =
        writeState msg.addr MSG_ENQUEUED t.Queue ++ [msg.setState MSG_ENQUEUED]) ∧
    (t.waiting = true →
      (t.PushMessage msg).handedOff = t.handedOff ++ [msg.setState MSG_ENQUEUED]) ∧
    (∀ id, (t.PushMessage msg).store.GetMessage id = t.store.GetMessage id) := by
  refine ⟨fun h => ?_, fun h => (PushMessage_waiting t msg h).1, fun id => ?_⟩
  · unfold Topic.Queue
    rw [(PushMessage_not_waiting t msg h).1]
    rfl
  · rw [PushMessage_store]
    cases hf : t.store.faults.put with
    | none => rw [(put_ok_iff _ _).2 hf] at hput; cases hput
    | some e1 => exact get_put_fault _ _ _ e1 hf

/-- C3 at the failing input: the Put of message 4 is rejected, message 4 is
in the queue afterwards and is not in the store. -/
theorem C3_PushMessage_put_fails_witness :
    (faultyTopic.store.PutMessage { ptrD.obj with State := MSG_ENQUEUED }).1
      = some (Error.ErrStore 5) ∧
    (faultyTopic.PushMessage ptrD).Queue = [ptrD] ∧
    (faultyTopic.PushMessage ptrD).store.GetMessage 4 = Except.error Error.ErrNotFound :=
  ⟨rfl,
   (C3_PushMessage_put_fails faultyTopic ptrD (Error.ErrStore 5) rfl).1 rfl,
   (C3_PushMessage_put_fails faultyTopic ptrD (Error.ErrStore 5) rfl).2.2 4⟩

/-- C4: for every topic state and message object `m`, `PushMessage m`
performs the store's Put on `m` with State `MSG_ENQUEUED` (so that, when that
Put succeeds, the store returns exactly this message for its ID) and then:
with a consumer waiting, `m` (State `MSG_ENQUEUED`) is handed to the consumer
and the queue is unchanged (that consumer is released; the flag stays up only
when another `pop` was waiting at `Lock` and now parks); with nobody waiting,
the new queue is the old queue followed by `m`, nothing is handed off, and
nothing else in the queue changes: an entry for another object is what it
was, at the place where it was, and the only change to an older entry for `m`
itself is that it shows State `MSG_ENQUEUED`, as `m` now has it. -/
theorem C4_PushMessage (t : Topic) (m : MsgPtr) :
    (t.PushMessage m).store = (t.store.PutMessage { m.obj with State := MSG_ENQUEUED }).2 ∧
    ((t.store.PutMessage { m.obj with State := MSG_ENQUEUED }).1 = none →
      (t.PushMessage m).store.GetMessage m.obj.ID
        = Except.ok { m.obj with State := MSG_ENQUEUED }) ∧
    (t.waiting = true →
      (t.PushMessage m).handedOff = t.handedOff ++ [m.setState MSG_ENQUEUED] ∧
      (t.PushMessage m).Queue = t.Queue ∧
      (t.lockWaiters = 0 → (t.PushMessage m).waiting = false)) ∧
    (t.waiting = false →
      (t.PushMessage m).Queue =
        writeState m.addr MSG_ENQUEUED t.Queue ++ [m.setState MSG_ENQUEUED] ∧
      ((∀ r ∈ t.Queue, r.addr ≠ m.addr) →
        (t.PushMessage m).Queue = t.Queue ++ [m.setState MSG_ENQUEUED]) ∧
      (∀ (i : Nat) (r : MsgPtr), t.Queue[i]? = some r → r.addr ≠ m.addr →
        (t.PushMessage m).Queue[i]? = some r) ∧
      (∀ (i : Nat) (r : MsgPtr), t.Queue[i]? = some r → r.addr = m.addr →
        (t.PushMessage m).Queue[i]? = some (r.setState MSG_ENQUEUED)) ∧
      (t.PushMessage m).Queue.length = t.Queue.length + 1 ∧
      (t.PushMessage m).handedOff = t.handedOff ∧
      (t.PushMessage m).waiting = false) := by
  refine ⟨PushMessage_store t m, fun h => ?_, fun h => ?_, fun h => ?_⟩
  · rw [PushMessage_store]
    exact get_put_same t.store { m.obj with State := MSG_ENQUEUED } ((put_ok_iff _ _).1 h)
  · obtain ⟨h1, h2, h3, _⟩ := PushMessage_waiting t m h
    exact ⟨h1, by rw [h2, (waiting_true t h).2], h3⟩
  · obtain ⟨h1, h2, _⟩ := PushMessage_not_waiting t m h
    have hq : (t.PushMessage m).Queue =
        writeState m.addr MSG_ENQUEUED t.Queue ++ [m.setState MSG_ENQUEUED] := by
      unfold Topic.Queue
      rw [h1]
      rfl
    have hw : (t.PushMessage m).waiting = false := by
      unfold Topic.waiting
      rw [h1]
    refine ⟨hq, fun hfresh => ?_, fun i r hi hr => ?_, fun i r hi hr => ?_, ?_, h2, hw⟩
    · rw [hq, writeState_of_not_mem _ _ _ hfresh]
    · have hlt : i < (writeState m.addr MSG_ENQUEUED t.Queue).length := by
        rw [writeState_length]
        exact (List.getElem?_eq_some.1 hi).1
      rw [hq, List.getElem?_append_left hlt]
      exact writeState_getElem_other _ _ _ i r hi hr
    · have hlt : i < (writeState m.addr MSG_ENQUEUED t.Queue).length := by
        rw [writeState_length]
        exact (List.getElem?_eq_some.1 hi).1
      rw [hq, List.getElem?_append_left hlt]
      exact writeState_getElem_same _ _ _ i r hi hr
    · rw [hq, List.length_append, writeState_length]
      rfl

/-! ## Pushing and popping in a row -/

theorem writeState_same (addr : Nat) (s : MessageState) (q : List MsgPtr)
    (h : ∀ r ∈ q, r.obj.State = s) : writeState addr s q = q := by
  induction q with
  | nil => rfl
  | cons r q ih =>
    have h1 : r.obj.State = s := h r (List.mem_cons_self _ _)
    have h2 := ih (fun r1 hr1 => h r1 (List.mem_cons_of_mem _ hr1))
    unfold writeState at h2 ⊢
    rw [List.map_cons, h2]
    by_cases ha : r.addr = addr
    · rw [if_pos ha]
      have : r.setState s = r := by
        cases r with
        | mk a o =>
          cases o with
          | mk i v st c =>
            simp only [MsgPtr.setState] at h1 ⊢
            rw [h1]
      rw [this]
    · rw [if_neg ha]

theorem pushAll_not_waiting (ms : List MsgPtr) (t : Topic) (hw : t.waiting = false)
    (hq : ∀ r ∈ t.Queue, r.obj.State = MSG_ENQUEUED) :
    (pushAll t ms).sync =
      Sync.idle (t.Queue ++ ms.map (fun m => m.setState MSG_ENQUEUED)) ∧
    (pushAll t ms).handedOff = t.handedOff := by
  induction ms generalizing t with
  | nil =>
    simp only [pushAll, List.foldl_nil, List.map_nil, List.append_nil, and_true]
    exact waiting_false t hw
  | cons m ms ih =>
    have h1 : pushAll t (m :: ms) = pushAll (t.PushMessage m) ms := rfl
    obtain ⟨a, b, _⟩ := PushMessage_not_waiting t m hw
    rw [writeState_same _ _ _ hq] at a
    have hw1 : (t.PushMessage m).waiting = false := by
      unfold Topic.waiting; rw [a]
    have hq1 : (t.PushMessage m).Queue = t.Queue ++ [m.setState MSG_ENQUEUED] := by
      unfold Topic.Queue; rw [a]; rfl
    have hq2 : ∀ r ∈ (t.PushMessage m).Queue, r.obj.State = MSG_ENQUEUED := by
      intro r hr
      rw [hq1] at hr
      rcases List.mem_append.1 hr with hr | hr
      · exact hq r hr
      · rw [List.mem_singleton.1 hr]; rfl
    obtain ⟨c, d⟩ := ih (t.PushMessage m) hw1 hq2
    rw [h1, c, d, hq1, b]
    simp

theorem pop_cons (t : Topic) (item : MsgPtr) (rest : List MsgPtr)
    (hs : t.sync = Sync.idle (item :: rest)) :
    t.pop = (PopResult.returned (item.setState MSG_DEQUEUED),
      { t with sync := Sync.idle (writeState item.addr MSG_DEQUEUED rest) }) := by
  simp only [Topic.pop, hs]

theorem popN_all (n : Nat) (q : List MsgPtr) (t : Topic) (hn : q.length = n)
    (hs : t.sync = Sync.idle q) :
    popN n t = (q.map (fun m => m.setState MSG_DEQUEUED), { t with sync := Sync.idle [] }) := by
  induction n generalizing q t with
  | zero =>
    have : q = [] := List.length_eq_zero.1 hn
    subst this
    simp only [popN, List.map_nil, Prod.mk.injEq, true_and]
    rw [← hs]
  | succ n ih =>
    cases q with
    | nil => cases hn
    | cons item rest =>
      have hp := pop_cons t item rest hs
      have hlen : (writeState item.addr MSG_DEQUEUED rest).length = n := by
        rw [writeState_length]
        simpa using hn
      have ih1 := ih (writeState item.addr MSG_DEQUEUED rest)
        { t with sync := Sync.idle (writeState item.addr MSG_DEQUEUED rest) } hlen rfl
      simp only [popN, hp, ih1, List.map_cons, writeState_setState]

/-- C5: on a topic with an empty queue and no waiting consumer, after the
messages `ms` are pushed with `PushMessage`, `ms.length` calls of `pop` in a
row all return; they return the pushed messages (each once, none else, in
push order), each with State `MSG_DEQUEUED`, and the queue is empty
afterwards. -/
theorem C5_push_then_pop (t : Topic) (ms : List MsgPtr)
    (hq : t.Queue = []) (hw : t.waiting = false) :
    (popN ms.length (pushAll t ms)).1 = ms.map (fun m => m.setState MSG_DEQUEUED) ∧
    (popN ms.length (pushAll t ms)).1.length = ms.length ∧
    (∀ m ∈ (popN ms.length (pushAll t ms)).1, m.obj.State = MSG_DEQUEUED) ∧
    (popN ms.length (pushAll t ms)).2.Queue = [] := by
  obtain ⟨a, _⟩ := pushAll_not_waiting ms t hw (by rw [hq]; intro r hr; cases hr)
  rw [hq, List.nil_append] at a
  have h := popN_all ms.length _ (pushAll t ms) (by simp) a
  rw [h]
  refine ⟨?_, by simp, ?_, rfl⟩
  · simp only [List.map_map]
    apply List.map_congr_left
    intro m _
    rfl
  · intro m hm
    simp only [List.map_map, List.mem_map, Function.comp_apply] at hm
    obtain ⟨m0, _, rfl⟩ := hm
    rfl

/-- C5 at the sample topic: three pushes, three pops. -/
theorem C5_push_then_pop_witness :
    sampleTopic.Queue = [] ∧ sampleTopic.waiting = false ∧
    (popN 3 (pushAll sampleTopic [ptrD, ptrB, ptrC])).1 =
      [ptrD.setState MSG_DEQUEUED, ptrB, ptrC.setState MSG_DEQUEUED] ∧
    (popN 3 (pushAll sampleTopic [ptrD, ptrB, ptrC])).2.Queue = [] :=
  ⟨rfl, rfl, (C5_push_then_pop sampleTopic [ptrD, ptrB, ptrC] rfl rfl).1,
    (C5_push_then_pop sampleTopic [ptrD, ptrB, ptrC] rfl rfl).2.2.2⟩

/-! ## The queue holds enqueued messages only -/

theorem queue_eq_of_sync (t t1 : Topic) (h : t1.sync = t.sync) :
    t1.Queue = t.Queue ∧ t1.waiting = t.waiting ∧ t1.lockWaiters = t.lockWaiters := by
  unfold Topic.Queue Topic.waiting Topic.lockWaiters
  rw [h]
  exact ⟨rfl, rfl, rfl⟩

theorem allEnqueued_of_eq (t t1 : Topic) (hs : t1.sync = t.sync)
    (hh : t1.handedOff = t.handedOff) (h : AllEnqueued t) : AllEnqueued t1 := by
  unfold AllEnqueued
  rw [(queue_eq_of_sync t t1 hs).1, hh]
  exact h

theorem push_allEnqueued (t : Topic) (msg : MsgPtr) (h : AllEnqueued t)
    (hm : msg.obj.State = MSG_ENQUEUED) (hfresh : ∀ r ∈ t.Queue, r.addr ≠ msg.addr) :
    AllEnqueued (t.push msg) := by
  cases hs : t.sync with
  | idle q =>
    have hq : t.Queue = q := by unfold Topic.Queue; rw [hs]
    rw [push_idle t q msg hs]
    unfold AllEnqueued at h
    rw [hq] at h hfresh
    obtain ⟨h1, h2, h3⟩ := h
    refine ⟨?_, h2, ?_⟩
    · intro r hr
      rcases List.mem_append.1 hr with hr | hr
      · exact h1 r hr
      · rw [List.mem_singleton.1 hr]; exact hm
    · show ((q ++ [msg]).map MsgPtr.addr).Nodup
      rw [List.map_append, List.nodup_append]
      refine ⟨h3, List.nodup_singleton _, ?_⟩
      intro a ha hb
      obtain ⟨r, hr, rfl⟩ := List.mem_map.1 ha
      simp only [List.map_cons, List.map_nil, List.mem_singleton] at hb
      exact hfresh r hr hb
  | parked k =>
    rw [push_parked t k msg hs]
    obtain ⟨_, h2, _⟩ := h
    have hq : ∀ k1 : Nat, (match Sync.afterHandOff k1 with
        | Sync.idle q => q
        | Sync.parked _ => []) = ([] : List MsgPtr) := by
      intro k1
      cases k1 <;> rfl
    refine ⟨?_, ?_, ?_⟩
    · intro r hr
      have : r ∈ ([] : List MsgPtr) := by rw [← hq k]; exact hr
      cases this
    · intro r hr
      rcases List.mem_append.1 hr with hr | hr
      · exact h2 r hr
      · rw [List.mem_singleton.1 hr]; exact hm
    · show (List.map MsgPtr.addr (match Sync.afterHandOff k with
        | Sync.idle q => q
        | Sync.parked _ => [])).Nodup
      rw [hq k]
      exact List.nodup_nil

theorem writeState_fresh (t : Topic) (addr : Nat)
    (hfresh : ∀ r ∈ t.Queue, r.addr ≠ addr) (s : MessageState) :
    t.writeState addr s = t := by
  unfold Topic.writeState
  cases hs : t.sync with
  | idle q =>
    have hq : t.Queue = q := by unfold Topic.Queue; rw [hs]
    rw [hq] at hfresh
    simp only [writeState_of_not_mem addr s q hfresh]
    rw [← hs]
  | parked k => rfl

theorem PushMessage_eq_push (t : Topic) (msg : MsgPtr) :
    t.PushMessage msg =
      Topic.push { t.writeState msg.addr MSG_ENQUEUED with
        store := (t.store.PutMessage { msg.obj with State := MSG_ENQUEUED }).2 }
        (msg.setState MSG_ENQUEUED) := by
  have hst : (t.writeState msg.addr MSG_ENQUEUED).store = t.store := by
    unfold Topic.writeState
    split <;> rfl
  simp only [Topic.PushMessage, hst]
  rfl

theorem PushMessage_allEnqueued (t : Topic) (msg : MsgPtr) (h : AllEnqueued t)
    (hfresh : ∀ r ∈ t.Queue, r.addr ≠ msg.addr) : AllEnqueued (t.PushMessage msg) := by
  rw [PushMessage_eq_push, writeState_fresh t msg.addr hfresh]
  exact push_allEnqueued { t with store := _ } (msg.setState MSG_ENQUEUED) h rfl hfresh

theorem PushMessageNew_allEnqueued (t : Topic) (m : Message) (h : AllEnqueued t) :
    AllEnqueued (t.PushMessageNew m) :=
  PushMessage_allEnqueued (t.alloc m).2 (t.alloc m).1 h (alloc_fresh t m)

theorem pop_allEnqueued (t : Topic) (h : AllEnqueued t) : AllEnqueued t.pop.2 := by
  cases hs : t.sync with
  | parked k =>
    have : t.pop = (PopResult.blocked, { t with sync := Sync.parked (k + 1) }) := by
      simp only [Topic.pop, hs]
    rw [this]
    exact ⟨fun r hr => (by cases hr), h.2.1, List.nodup_nil⟩
  | idle q =>
    have hq : t.Queue = q := by unfold Topic.Queue; rw [hs]
    cases q with
    | nil =>
      have : t.pop = (PopResult.blocked, { t with sync := Sync.parked 0 }) := by
        simp only [Topic.pop, hs]
      rw [this]
      exact ⟨fun r hr => (by cases hr), h.2.1, List.nodup_nil⟩
    | cons item rest =>
      rw [pop_cons t item rest hs]
      obtain ⟨h1, h2, h3⟩ := h
      rw [hq] at h1 h3
      rw [List.map_cons, List.nodup_cons] at h3
      have hfresh : ∀ r ∈ rest, r.addr ≠ item.addr := by
        intro r hr he
        exact h3.1 (he ▸ List.mem_map_of_mem _ hr)
      refine ⟨?_, h2, ?_⟩
      · intro r hr
        have hr1 : r ∈ rest := by
          have : r ∈ writeState item.addr MSG_DEQUEUED rest := hr
          rw [writeState_of_not_mem _ _ _ hfresh] at this
          exact this
        exact h1 r (List.mem_cons_of_mem _ hr1)
      · show ((writeState item.addr MSG_DEQUEUED rest).map MsgPtr.addr).Nodup
        rw [writeState_addr]
        exact h3.2

theorem finish_allEnqueued (t : Topic) (id : MessageID) (h : AllEnqueued t) :
    AllEnqueued (t.FinishMessage id).2 := by
  obtain ⟨a, b, _⟩ := finish_queue t id
  exact allEnqueued_of_eq t _ a b h

theorem pushPendingLoop_allEnqueued (pms : List PendingMsg) (t : Topic) (num : Nat)
    (h : AllEnqueued t) : AllEnqueued (pushPendingLoop pms (t, num)).1 := by
  induction pms generalizing t num with
  | nil => exact h
  | cons pm pms ih =>
    simp only [pushPendingLoop]
    split
    · exact ih t num h
    · split
      · exact ih _ _ (PushMessageNew_allEnqueued t _ h)
      · exact ih t num h

theorem pushPending_allEnqueued (t : Topic) (workerId : String) (h : AllEnqueued t) :
    AllEnqueued (t.PushPendingMsgsInWorker workerId).1 := by
  unfold Topic.PushPendingMsgsInWorker
  split
  · exact h
  · next pms _ => exact pushPendingLoop_allEnqueued pms t 0 h

theorem walkList_initVisit_allEnqueued (l : List Message) (t : Topic) (h : AllEnqueued t) :
    AllEnqueued (walkList initVisit l t).1 := by
  induction l generalizing t with
  | nil => exact h
  | cons m l ih =>
    simp only [walkList, initVisit]
    apply ih
    split
    · next hm => exact push_allEnqueued (t.alloc m).2 (t.alloc m).1 h hm (alloc_fresh t m)
    · exact h

theorem walkList_initVisit_error (l : List Message) (t : Topic) :
    (walkList initVisit l t).2 = none := by
  induction l generalizing t with
  | nil => rfl
  | cons m l ih => simp only [walkList, initVisit]; exact ih _

theorem Init_allEnqueued (t : Topic) (h : AllEnqueued t) : AllEnqueued t.Init.2 := by
  simp only [Topic.Init, Store.WalkMessage]
  split
  · exact walkList_initVisit_allEnqueued _ t h
  · next k e _ =>
    have h1 := walkList_initVisit_allEnqueued (t.store.msgs.take k) t h
    have h2 := walkList_initVisit_error (t.store.msgs.take k) t
    split
    · next s1 e1 heq => rw [heq] at h2; cases h2
    · next s1 heq => rw [heq] at h1; exact h1

theorem step_allEnqueued (t : Topic) (op : Op) (h : AllEnqueued t)
    (hop : t.repushes op = false) : AllEnqueued (t.step op) := by
  cases op with
  | PushMessage msg =>
    apply PushMessage_allEnqueued t msg h
    intro r hr he
    have : t.Queue.any (fun r => decide (r.addr = msg.addr)) = true :=
      List.any_eq_true.2 ⟨r, hr, by simpa using he⟩
    simp only [Topic.repushes] at hop
    rw [this] at hop
    cases hop
  | pop => exact pop_allEnqueued t h
  | FinishMessage id => exact finish_allEnqueued t id h
  | PushPendingMsgsInWorker w => exact pushPending_allEnqueued t w h
  | Init => exact Init_allEnqueued t h
  | setFaults f => exact h

theorem run_allEnqueued (ops : List Op) (t : Topic) (h : AllEnqueued t)
    (hrun : noRepush t ops = true) : AllEnqueued (t.run ops) := by
  induction ops generalizing t with
  | nil => exact h
  | cons op ops ih =>
    simp only [noRepush, Bool.and_eq_true, Bool.not_eq_true'] at hrun
    exact ih (t.step op) (step_allEnqueued t op h hrun.1) hrun.2

theorem newTopic_allEnqueued (name : String) (pendingTimeout : Nat) (store : Store) :
    AllEnqueued (NewTopic name pendingTimeout store) :=
  ⟨fun r hr => (by cases hr), fun r hr => (by cases hr), List.nodup_nil⟩

/-- C7 as stated fails.  Pushing one message object twice and popping once
leaves that object in the queue with State `MSG_DEQUEUED`, the mark `pop`
wrote through the pointer it returned.  And by the stored record: after the
replay has queued message 1, `FinishMessage 1` succeeds and stores it as
finished, while the message is still in the queue and is what the next `pop`
returns. -/
theorem C7_counterexample :
    (sampleTopic.run [Op.PushMessage ptrD, Op.PushMessage ptrD, Op.pop]).Queue
      = [ptrD.setState MSG_DEQUEUED] ∧
    (ptrD.setState MSG_DEQUEUED).obj.State = MSG_DEQUEUED ∧
    ((sampleTopic.run [Op.Init]).FinishMessage 1).1 = none ∧
    (sampleTopic.run [Op.Init, Op.FinishMessage 1]).store.stateOf 1 = some MSG_FINISHED ∧
    (sampleTopic.run [Op.Init, Op.FinishMessage 1]).Queue.map (fun r => r.obj.ID) = [1] ∧
    (sampleTopic.run [Op.Init, Op.FinishMessage 1]).pop.1
      = PopResult.returned { addr := 0, obj := { msgA with State := MSG_DEQUEUED } } := by
  decide

/-- C7, amended: in every topic state reached from a new topic (empty queue,
any store) by a sequence of `PushMessage`, `pop`, `FinishMessage`,
`PushPendingMsgsInWorker` (and also `Init` and changes of the store's faults)
in which no `PushMessage` is given a message object that is in the queue at
that moment, every message object in the queue has the State field
`MSG_ENQUEUED`, so none has `MSG_FINISHED` or `MSG_DEQUEUED`, and no object is
queued twice.  The stored record is another matter: `FinishMessage` leaves
the queue as it is, whatever it stores. -/
theorem C7_queue_only_enqueued (name : String) (pendingTimeout : Nat) (store : Store)
    (ops : List Op) (hrun : noRepush (NewTopic name pendingTimeout store) ops = true) :
    (∀ r ∈ ((NewTopic name pendingTimeout store).run ops).Queue,
      r.obj.State = MSG_ENQUEUED) ∧
    (∀ r ∈ ((NewTopic name pendingTimeout store).run ops).Queue,
      r.obj.State ≠ MSG_FINISHED) ∧
    (∀ r ∈ ((NewTopic name pendingTimeout store).run ops).Queue,
      r.obj.State ≠ MSG_DEQUEUED) ∧
    (((NewTopic name pendingTimeout store).run ops).Queue.map MsgPtr.addr).Nodup ∧
    (∀ id, (((NewTopic name pendingTimeout store).run ops).FinishMessage id).2.Queue
      = ((NewTopic name pendingTimeout store).run ops).Queue) := by
  have hinv := run_allEnqueued ops _ (newTopic_allEnqueued name pendingTimeout store) hrun
  have h := hinv.1
  refine ⟨h, fun m hm => ?_, fun m hm => ?_, hinv.2.2,
    fun id => (queue_eq_of_sync _ _ (finish_queue _ id).1).1⟩ <;> rw [h m hm] <;> decide

/-- C7 at a run on the sample store: replay, a new push, a pop, the re-push of
the popped object, a finish and a reclaim. -/
theorem C7_queue_only_enqueued_witness :
    noRepush (NewTopic "jobs" 30 sampleStore)
      [Op.Init, Op.PushMessage ptrD, Op.pop,
       Op.PushMessage { addr := 0, obj := { msgA with State := MSG_DEQUEUED } },
       Op.FinishMessage 1, Op.PushPendingMsgsInWorker "w1"] = true ∧
    (((NewTopic "jobs" 30 sampleStore).run
      [Op.Init, Op.PushMessage ptrD, Op.pop,
       Op.PushMessage { addr := 0, obj := { msgA with State := MSG_DEQUEUED } },
       Op.FinishMessage 1, Op.PushPendingMsgsInWorker "w1"]).Queue.map MsgPtr.addr).Nodup :=
  ⟨by decide,
   (C7_queue_only_enqueued "jobs" 30 sampleStore
      [Op.Init, Op.PushMessage ptrD, Op.pop,
       Op.PushMessage { addr := 0, obj := { msgA with State := MSG_DEQUEUED } },
       Op.FinishMessage 1, Op.PushPendingMsgsInWorker "w1"] (by decide)).2.2.2.1⟩

/-! ## Start-up replay -/

theorem walkList_initVisit (l : List Message) (t : Topic) (hw : t.waiting = false) :
    (walkList initVisit l t).2 = none ∧
    (walkList initVisit l t).1.Queue.map MsgPtr.obj =
      t.Queue.map MsgPtr.obj ++ l.filter (fun m => decide (m.State = MSG_ENQUEUED)) ∧
    (walkList initVisit l t).1.waiting = false ∧
    (walkList initVisit l t).1.handedOff = t.handedOff ∧
    (walkList initVisit l t).1.store = t.store := by
  induction l generalizing t with
  | nil => exact ⟨rfl, by simp [walkList], hw, rfl, rfl⟩
  | cons m l ih =>
    simp only [walkList, initVisit]
    by_cases hm : m.State = MSG_ENQUEUED
    · rw [if_pos hm]
      have hs : (t.alloc m).2.sync = Sync.idle t.Queue := waiting_false t hw
      have hp := push_idle (t.alloc m).2 t.Queue (t.alloc m).1 hs
      have hw1 : ((t.alloc m).2.push (t.alloc m).1).waiting = false := by rw [hp]; rfl
      have hq1 : ((t.alloc m).2.push (t.alloc m).1).Queue = t.Queue ++ [(t.alloc m).1] := by
        rw [hp]; rfl
      have hh1 : ((t.alloc m).2.push (t.alloc m).1).handedOff = t.handedOff := by rw [hp]; rfl
      have hst1 : ((t.alloc m).2.push (t.alloc m).1).store = t.store := by rw [hp]; rfl
      obtain ⟨a, b, c, d, e⟩ := ih ((t.alloc m).2.push (t.alloc m).1) hw1
      refine ⟨a, ?_, c, by rw [d, hh1], by rw [e, hst1]⟩
      rw [b, hq1]
      simp [List.filter_cons, hm, Topic.alloc]
    · rw [if_neg hm]
      obtain ⟨a, b, c, d, e⟩ := ih t hw
      refine ⟨a, ?_, c, d, e⟩
      rw [b]
      simp [List.filter_cons, hm]

theorem Init_eq (t : Topic) (hv : t.store.walkVisitsAll = true) :
    t.Init.1 = t.store.faults.walk.map Prod.snd ∧
    t.Init.2 = (walkList initVisit t.store.msgs t).1 := by
  unfold Store.walkVisitsAll at hv
  have herr := walkList_initVisit_error
  simp only [Topic.Init, Store.WalkMessage]
  cases hf : t.store.faults.walk with
  | none => simp [herr]
  | some ke =>
    obtain ⟨k, e⟩ := ke
    rw [hf] at hv
    have hk : t.store.msgs.length ≤ k := by simpa using hv
    have h2 := herr t.store.msgs t
    rcases hr : walkList initVisit t.store.msgs t with ⟨s1, e1⟩
    rw [hr] at h2
    simp only at h2
    subst h2
    simp [List.take_of_length_le hk, hr]

/-- C8: for a store whose scan reaches every stored record, `Init` on a new
topic leaves in the queue exactly the stored messages with State
`MSG_ENQUEUED`, in scan order and as often as the scan visits them (once
each, every one in a message object of its own), none with State
`MSG_DEQUEUED` or `MSG_FINISHED`; it returns the error of the scan (none when
the scan has no fault), hands nothing off and does not change the store. -/
theorem C8_Init_replays_enqueued (name : String) (pendingTimeout : Nat) (store : Store)
    (hv : store.walkVisitsAll = true) :
    (NewTopic name pendingTimeout store).Init.2.Queue.map MsgPtr.obj =
      store.msgs.filter (fun m => decide (m.State = MSG_ENQUEUED)) ∧
    (∀ m, m.State = MSG_ENQUEUED →
      ((NewTopic name pendingTimeout store).Init.2.Queue.map MsgPtr.obj).count m
        = store.msgs.count m) ∧
    (∀ r ∈ (NewTopic name pendingTimeout store).Init.2.Queue,
      r.obj.State = MSG_ENQUEUED) ∧
    ((NewTopic name pendingTimeout store).Init.2.Queue.map MsgPtr.addr).Nodup ∧
    (NewTopic name pendingTimeout store).Init.1 =
      (store.WalkMessage initVisit (NewTopic name pendingTimeout store)).2 ∧
    (NewTopic name pendingTimeout store).Init.1 = store.faults.walk.map Prod.snd ∧
    (NewTopic name pendingTimeout store).Init.2.handedOff = [] ∧
    (NewTopic name pendingTimeout store).Init.2.store = store := by
  obtain ⟨h1, h2⟩ := Init_eq (NewTopic name pendingTimeout store) hv
  obtain ⟨_, b, _, d, e⟩ :=
    walkList_initVisit store.msgs (NewTopic name pendingTimeout store) rfl
  have hinv := Init_allEnqueued _ (newTopic_allEnqueued name pendingTimeout store)
  have hq : (NewTopic name pendingTimeout store).Init.2.Queue.map MsgPtr.obj =
      store.msgs.filter (fun m => decide (m.State = MSG_ENQUEUED)) := by
    rw [h2]
    exact b
  refine ⟨hq, ?_, hinv.1, hinv.2.2, rfl, h1, ?_, ?_⟩
  · intro m hm
    rw [hq, List.count_filter]
    simpa using hm
  · rw [h2]; exact d
  · rw [h2]; exact e

/-- C8 at a store of four records (states enqueued, dequeued, finished,
enqueued) whose scan reports an error after the last one. -/
theorem C8_Init_replays_enqueued_witness :
    walkFaultStore.walkVisitsAll = true ∧
    (NewTopic "jobs" 30 walkFaultStore).Init.2.Queue.map MsgPtr.obj = [msgA, msgD] ∧
    (NewTopic "jobs" 30 walkFaultStore).Init.1 = some (Error.ErrStore 9) :=
  ⟨rfl, (C8_Init_replays_enqueued "jobs" 30 walkFaultStore rfl).1,
    (C8_Init_replays_enqueued "jobs" 30 walkFaultStore rfl).2.2.2.2.2.1⟩

/-! ## Worker-loss reclaim -/

theorem PushMessageNew_store (t : Topic) (m : Message) :
    (t.PushMessageNew m).store = (t.store.PutMessage { m with State := MSG_ENQUEUED }).2 := by
  unfold Topic.PushMessageNew
  rw [PushMessage_store]
  rfl

theorem PushMessageNew_not_waiting (t : Topic) (m : Message) (hw : t.waiting = false) :
    (t.PushMessageNew m).sync =
      Sync.idle (t.Queue ++ [(t.alloc m).1.setState MSG_ENQUEUED]) ∧
    (t.PushMessageNew m).handedOff = t.handedOff ∧
    (t.PushMessageNew m).Name = t.Name ∧
    (t.PushMessageNew m).PendingTimeout = t.PendingTimeout := by
  unfold Topic.PushMessageNew
  have hw1 : (t.alloc m).2.waiting = false := hw
  obtain ⟨a, b, _, d, e⟩ := PushMessage_not_waiting (t.alloc m).2 (t.alloc m).1 hw1
  have hq : (t.alloc m).2.Queue = t.Queue := rfl
  rw [hq, writeState_of_not_mem _ _ _ (alloc_fresh t m)] at a
  exact ⟨a, b, d, e⟩

theorem pushPendingLoop_skip (pm : PendingMsg) (pms : List PendingMsg) (t : Topic) (num : Nat)
    (h : ∀ m0, t.store.GetMessage pm.MessageID = Except.ok m0 → m0.State ≠ MSG_DEQUEUED) :
    pushPendingLoop (pm :: pms) (t, num) = pushPendingLoop pms (t, num) := by
  cases hg : t.store.GetMessage pm.MessageID with
  | error e => simp only [pushPendingLoop, hg]
  | ok m0 => simp only [pushPendingLoop, hg, if_neg (h m0 hg)]

theorem pushPendingLoop_push (pm : PendingMsg) (pms : List PendingMsg) (t : Topic) (num : Nat)
    (m0 : Message) (hg : t.store.GetMessage pm.MessageID = Except.ok m0)
    (hs : m0.State = MSG_DEQUEUED) :
    pushPendingLoop (pm :: pms) (t, num) = pushPendingLoop pms (t.PushMessageNew m0, num + 1) := by
  simp only [pushPendingLoop, hg, if_pos hs]

theorem pushNew_get_same (t : Topic) (pm : PendingMsg) (m0 : Message)
    (hg : t.store.GetMessage pm.MessageID = Except.ok m0) (hput : t.store.faults.put = none) :
    (t.PushMessageNew m0).store.GetMessage pm.MessageID
      = Except.ok { m0 with State := MSG_ENQUEUED } := by
  have hid0 : m0.ID = pm.MessageID := get_ok_id _ _ _ hg
  rw [PushMessageNew_store]
  have := get_put_same t.store { m0 with State := MSG_ENQUEUED } hput
  simpa [hid0] using this

theorem pushNew_get_other (t : Topic) (pm : PendingMsg) (m0 : Message)
    (hg : t.store.GetMessage pm.MessageID = Except.ok m0) (id : MessageID)
    (hne : id ≠ pm.MessageID) :
    (t.PushMessageNew m0).store.GetMessage id = t.store.GetMessage id := by
  have hid0 : m0.ID = pm.MessageID := get_ok_id _ _ _ hg
  rw [PushMessageNew_store]
  exact get_put_other _ _ _ (by simpa [hid0] using hne)

theorem pushNew_not_dequeued (t : Topic) (pm : PendingMsg) (m0 : Message)
    (hg : t.store.GetMessage pm.MessageID = Except.ok m0) (hput : t.store.faults.put = none)
    (pm1 : PendingMsg) (m1 : Message)
    (ha : (t.PushMessageNew m0).store.GetMessage pm1.MessageID = Except.ok m1)
    (hb : m1.State = MSG_DEQUEUED) : pm1.MessageID ≠ pm.MessageID := by
  intro hc
  rw [hc, pushNew_get_same t pm m0 hg hput] at ha
  simp only [Except.ok.injEq] at ha
  rw [← ha] at hb
  cases hb

theorem pushPendingLoop_store (pms : List PendingMsg) (t : Topic) (num : Nat)
    (hput : t.store.faults.put = none) :
    (pushPendingLoop pms (t, num)).1.store.pending = t.store.pending ∧
    (pushPendingLoop pms (t, num)).1.store.faults = t.store.faults ∧
    (∀ pm ∈ pms, ∀ m0, t.store.GetMessage pm.MessageID = Except.ok m0 →
        m0.State = MSG_DEQUEUED →
        (pushPendingLoop pms (t, num)).1.store.GetMessage pm.MessageID
          = Except.ok { m0 with State := MSG_ENQUEUED }) ∧
    (∀ id, (∀ pm ∈ pms, ∀ m0, pm.MessageID = id →
          t.store.GetMessage id = Except.ok m0 → m0.State ≠ MSG_DEQUEUED) →
        (pushPendingLoop pms (t, num)).1.store.GetMessage id = t.store.GetMessage id) := by
  induction pms generalizing t num with
  | nil => exact ⟨rfl, rfl, fun pm hpm => (by cases hpm), fun id _ => rfl⟩
  | cons pm pms ih =>
    by_cases hhit : ∃ m0, t.store.GetMessage pm.MessageID = Except.ok m0 ∧ m0.State = MSG_DEQUEUED
    · obtain ⟨m0, hg, hs⟩ := hhit
      rw [pushPendingLoop_push pm pms t num m0 hg hs]
      have hst1 := PushMessageNew_store t m0
      have hput1 : (t.PushMessageNew m0).store.faults.put = none := by
        rw [hst1, put_faults]; exact hput
      have hget_i := pushNew_get_same t pm m0 hg hput
      have hget_o := pushNew_get_other t pm m0 hg
      obtain ⟨h3, h4, h7, h8⟩ := ih (t.PushMessageNew m0) (num + 1) hput1
      refine ⟨?_, ?_, ?_, ?_⟩
      · rw [h3, hst1, put_pending]
      · rw [h4, hst1, put_faults]
      · intro pm1 hpm1 m1 ha hb
        by_cases hc1 : pm1.MessageID = pm.MessageID
        · rw [hc1, hg] at ha
          simp only [Except.ok.injEq] at ha
          rw [hc1, ← ha, ← hget_i]
          apply h8
          intro pm2 _ m2 _ hb2 hs2
          rw [hget_i] at hb2
          simp only [Except.ok.injEq] at hb2
          rw [← hb2] at hs2
          cases hs2
        · rcases List.mem_cons.1 hpm1 with rfl | hpm1
          · exact absurd rfl hc1
          · exact h7 pm1 hpm1 m1 (by rw [hget_o _ hc1]; exact ha) hb
      · intro id hid
        have hne : id ≠ pm.MessageID := by
          intro hc
          exact hid pm (List.mem_cons_self _ _) m0 hc.symm (by rw [hc]; exact hg) hs
        rw [← hget_o id hne]
        apply h8
        intro pm1 hpm1 m1 hc ha
        rw [hget_o id hne] at ha
        exact hid pm1 (List.mem_cons_of_mem _ hpm1) m1 hc ha
    · have hskip : ∀ m0, t.store.GetMessage pm.MessageID = Except.ok m0 →
          m0.State ≠ MSG_DEQUEUED := fun m0 hg hs => hhit ⟨m0, hg, hs⟩
      rw [pushPendingLoop_skip pm pms t num hskip]
      obtain ⟨h3, h4, h7, h8⟩ := ih t num hput
      refine ⟨h3, h4, ?_, ?_⟩
      · intro pm1 hpm1 m0 ha hb
        rcases List.mem_cons.1 hpm1 with rfl | hpm1
        · exact absurd hb (hskip m0 ha)
        · exact h7 pm1 hpm1 m0 ha hb
      · intro id hid
        exact h8 id (fun pm1 hpm1 => hid pm1 (List.mem_cons_of_mem _ hpm1))

theorem pushPendingLoop_queue (pms : List PendingMsg) (t : Topic) (num : Nat)
    (hw : t.waiting = false) (hput : t.store.faults.put = none) :
    ∃ added : List MsgPtr,
      (pushPendingLoop pms (t, num)).1.sync = Sync.idle (t.Queue ++ added) ∧
      (pushPendingLoop pms (t, num)).1.handedOff = t.handedOff ∧
      (pushPendingLoop pms (t, num)).2 = num + added.length ∧
      (added.map (fun r => r.obj.ID)).Nodup ∧
      (∀ m, m ∈ added.map MsgPtr.obj ↔ ∃ pm ∈ pms, ∃ m0,
          t.store.GetMessage pm.MessageID = Except.ok m0 ∧
          m0.State = MSG_DEQUEUED ∧ m = { m0 with State := MSG_ENQUEUED }) := by
  induction pms generalizing t num with
  | nil =>
    refine ⟨[], ?_, rfl, rfl, List.nodup_nil, ?_⟩
    · rw [List.append_nil]; exact waiting_false t hw
    · intro m; simp
  | cons pm pms ih =>
    by_cases hhit : ∃ m0, t.store.GetMessage pm.MessageID = Except.ok m0 ∧ m0.State = MSG_DEQUEUED
    · obtain ⟨m0, hg, hs⟩ := hhit
      have hid0 : m0.ID = pm.MessageID := get_ok_id _ _ _ hg
      rw [pushPendingLoop_push pm pms t num m0 hg hs]
      obtain ⟨hs1, hh1, _, _⟩ := PushMessageNew_not_waiting t m0 hw
      have hw1 : (t.PushMessageNew m0).waiting = false := by
        unfold Topic.waiting; rw [hs1]
      have hq1 : (t.PushMessageNew m0).Queue
          = t.Queue ++ [(t.alloc m0).1.setState MSG_ENQUEUED] := by
        unfold Topic.Queue; rw [hs1]; rfl
      have hput1 : (t.PushMessageNew m0).store.faults.put = none := by
        rw [PushMessageNew_store, put_faults]; exact hput
      have hget_o := pushNew_get_other t pm m0 hg
      have hne_of := pushNew_not_dequeued t pm m0 hg hput
      obtain ⟨added, h1, h1b, h2, h5, h6⟩ := ih (t.PushMessageNew m0) (num + 1) hw1 hput1
      refine ⟨(t.alloc m0).1.setState MSG_ENQUEUED :: added, ?_, ?_, ?_, ?_, ?_⟩
      · rw [h1, hq1]; simp
      · rw [h1b, hh1]
      · rw [h2]; simp; omega
      · rw [List.map_cons, List.nodup_cons]
        refine ⟨?_, h5⟩
        intro hmem
        obtain ⟨r, hr, hrid⟩ := List.mem_map.1 hmem
        obtain ⟨pm1, _, m1, ha, hb, hc⟩ := (h6 r.obj).1 (List.mem_map_of_mem _ hr)
        have hid1 : m1.ID = pm1.MessageID := get_ok_id _ _ _ ha
        apply hne_of pm1 m1 ha hb
        rw [← hid1, ← hid0]
        rw [hc] at hrid
        exact hrid
      · intro m
        rw [List.map_cons, List.mem_cons, h6]
        constructor
        · rintro (rfl | ⟨pm1, hpm1, m1, ha, hb, hc⟩)
          · exact ⟨pm, List.mem_cons_self _ _, m0, hg, hs, rfl⟩
          · refine ⟨pm1, List.mem_cons_of_mem _ hpm1, m1, ?_, hb, hc⟩
            rw [← hget_o _ (hne_of pm1 m1 ha hb)]
            exact ha
        · rintro ⟨pm1, hpm1, m1, ha, hb, hc⟩
          by_cases hc1 : pm1.MessageID = pm.MessageID
          · left
            rw [hc1, hg] at ha
            simp only [Except.ok.injEq] at ha
            rw [hc, ← ha]
            rfl
          · right
            rcases List.mem_cons.1 hpm1 with rfl | hpm1
            · exact absurd rfl hc1
            · exact ⟨pm1, hpm1, m1, by rw [hget_o _ hc1]; exact ha, hb, hc⟩
    · have hskip : ∀ m0, t.store.GetMessage pm.MessageID = Except.ok m0 →
          m0.State ≠ MSG_DEQUEUED := fun m0 hg hs => hhit ⟨m0, hg, hs⟩
      rw [pushPendingLoop_skip pm pms t num hskip]
      obtain ⟨added, h1, h1b, h2, h5, h6⟩ := ih t num hw hput
      refine ⟨added, h1, h1b, h2, h5, ?_⟩
      intro m
      rw [h6]
      constructor
      · rintro ⟨pm1, hpm1, m0, ha, hb, hc⟩
        exact ⟨pm1, List.mem_cons_of_mem _ hpm1, m0, ha, hb, hc⟩
      · rintro ⟨pm1, hpm1, m0, ha, hb, hc⟩
        rcases List.mem_cons.1 hpm1 with rfl | hpm1
        · exact absurd hb (hskip m0 ha)
        · exact ⟨pm1, hpm1, m0, ha, hb, hc⟩

theorem remove_get (st : Store) (workerId : String) (id : MessageID) :
    (st.RemovePendingMsgsInWorker workerId).2.GetMessage id = st.GetMessage id := by
  unfold Store.RemovePendingMsgsInWorker
  cases st.faults.removePending <;> rfl

theorem PushPendingMsgsInWorker_ok (t : Topic) (workerId : String) (pms : List PendingMsg)
    (hpend : t.store.GetPendingMsgsInWorker workerId = Except.ok pms) :
    t.PushPendingMsgsInWorker workerId =
      ({ (pushPendingLoop pms (t, 0)).1 with
          store := ((pushPendingLoop pms (t, 0)).1.store.RemovePendingMsgsInWorker workerId).2 },
        (pushPendingLoop pms (t, 0)).2) := by
  simp only [Topic.PushPendingMsgsInWorker, hpend]

/-- C9 as stated fails in its last part: the pending assignments of `w1` can
be read, nobody is waiting, Put succeeds and message 2 is re-pushed, but the
store rejects the removal, and `w1` still has its assignments afterwards. -/
theorem C9_counterexample :
    removeFaultTopic.store.faults.getPending = none ∧
    removeFaultTopic.waiting = false ∧
    removeFaultTopic.store.faults.put = none ∧
    (removeFaultTopic.PushPendingMsgsInWorker "w1").1.Queue.map MsgPtr.obj
      = [{ msgB with State := MSG_ENQUEUED }] ∧
    (⟨"w1", 2, 20⟩ : PendingMsg)
      ∈ (removeFaultTopic.PushPendingMsgsInWorker "w1").1.store.pending := by
  decide

/-- C9, amended by the condition that the store's removal succeeds: when the
pending assignments `pms` of the worker can be read, nobody is waiting, and
Put and the removal succeed, `PushPendingMsgsInWorker` appends to the queue a
list `added` that holds, once each (no ID twice), exactly the messages named
by an assignment whose stored State is `MSG_DEQUEUED`, now with State
`MSG_ENQUEUED`; nothing is handed off and the counter equals the number of
pushes; each such message is stored with State `MSG_ENQUEUED` afterwards; a
message that no assignment names with stored State `MSG_DEQUEUED` (stored as
enqueued or finished, missing, or not named) is stored as before; afterwards
the worker has no pending assignments. -/
theorem C9_PushPendingMsgsInWorker (t : Topic) (workerId : String) (pms : List PendingMsg)
    (hpend : t.store.GetPendingMsgsInWorker workerId = Except.ok pms)
    (hw : t.waiting = false)
    (hput : t.store.faults.put = none)
    (hrem : t.store.faults.removePending = none) :
    (∃ added : List MsgPtr,
      (t.PushPendingMsgsInWorker workerId).1.Queue = t.Queue ++ added ∧
      (t.PushPendingMsgsInWorker workerId).2 = added.length ∧
      (added.map (fun r => r.obj.ID)).Nodup ∧
      (∀ m, m ∈ added.map MsgPtr.obj ↔ ∃ pm ∈ pms, ∃ m0,
          t.store.GetMessage pm.MessageID = Except.ok m0 ∧
          m0.State = MSG_DEQUEUED ∧ m = { m0 with State := MSG_ENQUEUED })) ∧
    (t.PushPendingMsgsInWorker workerId).1.handedOff = t.handedOff ∧
    (∀ pm ∈ pms, ∀ m0, t.store.GetMessage pm.MessageID = Except.ok m0 →
        m0.State = MSG_DEQUEUED →
        (t.PushPendingMsgsInWorker workerId).1.store.GetMessage pm.MessageID
          = Except.ok { m0 with State := MSG_ENQUEUED }) ∧
    (∀ id, (∀ pm ∈ pms, ∀ m0, pm.MessageID = id →
          t.store.GetMessage id = Except.ok m0 → m0.State ≠ MSG_DEQUEUED) →
        (t.PushPendingMsgsInWorker workerId).1.store.GetMessage id = t.store.GetMessage id) ∧
    (t.PushPendingMsgsInWorker workerId).1.store.GetPendingMsgsInWorker workerId
      = Except.ok [] ∧
    (t.PushPendingMsgsInWorker workerId).1.store.pending
      = t.store.pending.filter (fun pm => !decide (pm.WorkerID = workerId)) := by
  obtain ⟨added, h1, h1b, h2, h5, h6⟩ := pushPendingLoop_queue pms t 0 hw hput
  obtain ⟨h3, h4, h7, h8⟩ := pushPendingLoop_store pms t 0 hput
  rw [PushPendingMsgsInWorker_ok t workerId pms hpend]
  have hrem1 : (pushPendingLoop pms (t, 0)).1.store.faults.removePending = none := by
    rw [h4]; exact hrem
  have hgp : t.store.faults.getPending = none := by
    unfold Store.GetPendingMsgsInWorker at hpend
    cases hf : t.store.faults.getPending with
    | none => rfl
    | some e => rw [hf] at hpend; cases hpend
  have hpendAfter :
      ((pushPendingLoop pms (t, 0)).1.store.RemovePendingMsgsInWorker workerId).2.pending
        = t.store.pending.filter (fun pm => !decide (pm.WorkerID = workerId)) := by
    simp [Store.RemovePendingMsgsInWorker, hrem1, h3]
  have hfaultsAfter :
      ((pushPendingLoop pms (t, 0)).1.store.RemovePendingMsgsInWorker workerId).2.faults
        = t.store.faults := by
    unfold Store.RemovePendingMsgsInWorker
    rw [hrem1]
    exact h4
  refine ⟨⟨added, ?_, ?_, h5, h6⟩, h1b, ?_, ?_, ?_, hpendAfter⟩
  · have hq := (queue_eq_of_sync (pushPendingLoop pms (t, 0)).1
      { (pushPendingLoop pms (t, 0)).1 with
        store := ((pushPendingLoop pms (t, 0)).1.store.RemovePendingMsgsInWorker workerId).2 }
      rfl).1
    have hq2 : (pushPendingLoop pms (t, 0)).1.Queue = t.Queue ++ added := by
      rw [Topic.Queue, h1]
    exact hq.trans hq2
  · show (pushPendingLoop pms (t, 0)).2 = _
    rw [h2]; simp
  · intro pm hpm m0 ha hb
    show ((pushPendingLoop pms (t, 0)).1.store.RemovePendingMsgsInWorker workerId).2.GetMessage _ = _
    rw [remove_get]
    exact h7 pm hpm m0 ha hb
  · intro id hid
    show ((pushPendingLoop pms (t, 0)).1.store.RemovePendingMsgsInWorker workerId).2.GetMessage _ = _
    rw [remove_get]
    exact h8 id hid
  · show Store.GetPendingMsgsInWorker
      ((pushPendingLoop pms (t, 0)).1.store.RemovePendingMsgsInWorker workerId).2 workerId = _
    unfold Store.GetPendingMsgsInWorker
    rw [hfaultsAfter, hgp, hpendAfter]
    simp [List.filter_filter]

/-- C9 at the sample topic and worker `w1`, whose five assignments name
message 2 (dequeued) twice, message 1 (enqueued), message 3 (finished) and a
missing message 9. -/
theorem C9_PushPendingMsgsInWorker_witness :
    sampleTopic.store.GetPendingMsgsInWorker "w1"
      = Except.ok [⟨"w1", 2, 20⟩, ⟨"w1", 1, 21⟩, ⟨"w1", 2, 23⟩, ⟨"w1", 3, 24⟩, ⟨"w1", 9, 25⟩] ∧
    sampleTopic.waiting = false ∧
    sampleTopic.store.faults.put = none ∧
    sampleTopic.store.faults.removePending = none ∧
    (sampleTopic.PushPendingMsgsInWorker "w1").1.Queue.map MsgPtr.obj
      = [{ msgB with State := MSG_ENQUEUED }] ∧
    (sampleTopic.PushPendingMsgsInWorker "w1").1.store.GetPendingMsgsInWorker "w1"
      = Except.ok [] :=
  ⟨rfl, rfl, rfl, rfl, by decide,
    (C9_PushPendingMsgsInWorker sampleTopic "w1" _ rfl rfl rfl rfl).2.2.2.2.1⟩

/-! ## State changes, operation by operation -/

theorem stateOf_congr (st st1 : Store) (id : MessageID)
    (h : st1.GetMessage id = st.GetMessage id) : st1.stateOf id = st.stateOf id := by
  simp only [Store.stateOf, h]

theorem PushMessage_stateOf_other (t : Topic) (msg : MsgPtr) (id : MessageID)
    (hid : id ≠ msg.obj.ID) :
    (t.PushMessage msg).store.stateOf id = t.store.stateOf id := by
  rw [PushMessage_store]
  exact stateOf_congr _ _ _
    (get_put_other t.store { msg.obj with State := MSG_ENQUEUED } id hid)

theorem PushMessage_stateOf_ok (t : Topic) (msg : MsgPtr)
    (hput : (t.store.PutMessage { msg.obj with State := MSG_ENQUEUED }).1 = none) :
    (t.PushMessage msg).store.stateOf msg.obj.ID = some MSG_ENQUEUED := by
  rw [PushMessage_store]
  have := get_put_same t.store { msg.obj with State := MSG_ENQUEUED } ((put_ok_iff _ _).1 hput)
  simp only [Store.stateOf]
  rw [this]

theorem PushMessage_stateOf_fail (t : Topic) (msg : MsgPtr) (e : Error)
    (hput : (t.store.PutMessage { msg.obj with State := MSG_ENQUEUED }).1 = some e)
    (id : MessageID) :
    (t.PushMessage msg).store.stateOf id = t.store.stateOf id := by
  rw [PushMessage_store]
  cases hf : t.store.faults.put with
  | none => rw [(put_ok_iff _ _).2 hf] at hput; cases hput
  | some e1 => exact stateOf_congr _ _ _ (get_put_fault _ _ _ e1 hf)

theorem FinishMessage_stateOf_other (t : Topic) (id id1 : MessageID) (hid : id1 ≠ id) :
    (t.FinishMessage id).2.store.stateOf id1 = t.store.stateOf id1 := by
  cases hg : t.store.GetMessage id with
  | error e => rw [finish_error t id e hg]
  | ok m =>
    have hmid := get_ok_id _ _ _ hg
    rw [finish_store t id m hg]
    have hne : id1 ≠ ({ m with State := MSG_FINISHED } : Message).ID := by
      simpa [hmid] using hid
    exact stateOf_congr _ _ _ (get_put_other t.store { m with State := MSG_FINISHED } id1 hne)

theorem FinishMessage_stateOf_ok (t : Topic) (id : MessageID) (m : Message)
    (hget : t.store.GetMessage id = Except.ok m)
    (hput : (t.store.PutMessage { m with State := MSG_FINISHED }).1 = none) :
    (t.FinishMessage id).1 = none ∧
    (t.FinishMessage id).2.store.stateOf id = some MSG_FINISHED := by
  have hmid := get_ok_id _ _ _ hget
  rw [finish_store t id m hget]
  refine ⟨hput, ?_⟩
  have h1 := get_put_same t.store { m with State := MSG_FINISHED } ((put_ok_iff _ _).1 hput)
  have h2 : (t.store.PutMessage { m with State := MSG_FINISHED }).2.GetMessage id
      = Except.ok { m with State := MSG_FINISHED } := by
    rw [← hmid]; exact h1
  simp only [Store.stateOf]
  rw [h2]

theorem FinishMessage_stateOf_fail (t : Topic) (id : MessageID)
    (herr : (t.FinishMessage id).1 ≠ none) (id1 : MessageID) :
    (t.FinishMessage id).2.store.stateOf id1 = t.store.stateOf id1 := by
  cases hg : t.store.GetMessage id with
  | error e => rw [finish_error t id e hg]
  | ok m =>
    rw [finish_store t id m hg] at herr ⊢
    cases hf : t.store.faults.put with
    | none => exact absurd ((put_ok_iff _ _).2 hf) herr
    | some e1 => exact stateOf_congr _ _ _ (get_put_fault _ _ _ e1 hf)

theorem PushMessageNew_stateOf (t : Topic) (m : Message) (id : MessageID) :
    (t.PushMessageNew m).store.stateOf id = t.store.stateOf id ∨
    (id = m.ID ∧ (t.PushMessageNew m).store.stateOf id = some MSG_ENQUEUED) := by
  rw [PushMessageNew_store]
  by_cases hid : id = m.ID
  · cases hf : t.store.faults.put with
    | some e => left; exact stateOf_congr _ _ _ (get_put_fault _ _ _ e hf)
    | none =>
      right
      refine ⟨hid, ?_⟩
      have := get_put_same t.store { m with State := MSG_ENQUEUED } hf
      simp only [Store.stateOf, hid]
      rw [this]
  · left
    exact stateOf_congr _ _ _ (get_put_other t.store { m with State := MSG_ENQUEUED } id hid)

theorem pushPendingLoop_stateOf (pms : List PendingMsg) (t : Topic) (num : Nat)
    (id : MessageID) :
    (pushPendingLoop pms (t, num)).1.store.stateOf id = t.store.stateOf id ∨
    (t.store.stateOf id = some MSG_DEQUEUED ∧
      (pushPendingLoop pms (t, num)).1.store.stateOf id = some MSG_ENQUEUED) := by
  induction pms generalizing t num with
  | nil => left; rfl
  | cons pm pms ih =>
    by_cases hhit : ∃ m0, t.store.GetMessage pm.MessageID = Except.ok m0 ∧ m0.State = MSG_DEQUEUED
    · obtain ⟨m0, hg, hs⟩ := hhit
      have hid0 : m0.ID = pm.MessageID := get_ok_id _ _ _ hg
      rw [pushPendingLoop_push pm pms t num m0 hg hs]
      rcases PushMessageNew_stateOf t m0 id with h1 | ⟨h1, h2⟩
      · rcases ih (t.PushMessageNew m0) (num + 1) with h3 | ⟨h3, h4⟩
        · left; rw [h3, h1]
        · right; exact ⟨by rw [← h1]; exact h3, h4⟩
      · have hbefore : t.store.stateOf id = some MSG_DEQUEUED := by
          simp only [Store.stateOf, h1, hid0, hg, hs]
        rcases ih (t.PushMessageNew m0) (num + 1) with h3 | ⟨h3, _⟩
        · right; exact ⟨hbefore, by rw [h3, h2]⟩
        · rw [h2] at h3; cases h3
    · rw [pushPendingLoop_skip pm pms t num (fun m0 hg hs => hhit ⟨m0, hg, hs⟩)]
      exact ih t num

theorem remove_stateOf (st : Store) (workerId : String) (id : MessageID) :
    (st.RemovePendingMsgsInWorker workerId).2.stateOf id = st.stateOf id :=
  stateOf_congr _ _ _ (remove_get st workerId id)

theorem PushPendingMsgsInWorker_stateOf (t : Topic) (workerId : String) (id : MessageID) :
    (t.PushPendingMsgsInWorker workerId).1.store.stateOf id = t.store.stateOf id ∨
    (t.store.stateOf id = some MSG_DEQUEUED ∧
      (t.PushPendingMsgsInWorker workerId).1.store.stateOf id = some MSG_ENQUEUED) := by
  cases hp : t.store.GetPendingMsgsInWorker workerId with
  | error e =>
    left
    simp only [Topic.PushPendingMsgsInWorker, hp]
  | ok pms =>
    rw [PushPendingMsgsInWorker_ok t workerId pms hp]
    show (Store.stateOf ((pushPendingLoop pms (t, 0)).1.store.RemovePendingMsgsInWorker workerId).2 id
        = _) ∨ (_ ∧ Store.stateOf
          ((pushPendingLoop pms (t, 0)).1.store.RemovePendingMsgsInWorker workerId).2 id = _)
    rw [remove_stateOf]
    exact pushPendingLoop_stateOf pms t 0 id

theorem PushPendingMsgsInWorker_stateOf_ok (t : Topic) (workerId : String)
    (pms : List PendingMsg)
    (hpend : t.store.GetPendingMsgsInWorker workerId = Except.ok pms)
    (hput : t.store.faults.put = none) (pm : PendingMsg) (hpm : pm ∈ pms)
    (hs : t.store.stateOf pm.MessageID = some MSG_DEQUEUED) :
    (t.PushPendingMsgsInWorker workerId).1.store.stateOf pm.MessageID = some MSG_ENQUEUED := by
  rw [PushPendingMsgsInWorker_ok t workerId pms hpend]
  show Store.stateOf
    ((pushPendingLoop pms (t, 0)).1.store.RemovePendingMsgsInWorker workerId).2 pm.MessageID = _
  rw [remove_stateOf]
  obtain ⟨_, _, h7, _⟩ := pushPendingLoop_store pms t 0 hput
  cases hg : t.store.GetMessage pm.MessageID with
  | error e => simp [Store.stateOf, hg] at hs
  | ok m0 =>
    have hst : m0.State = MSG_DEQUEUED := by
      simpa [Store.stateOf, hg] using hs
    simp only [Store.stateOf, h7 pm hpm m0 hg hst]

theorem pop_store (t : Topic) : t.pop.2.store = t.store := by
  unfold Topic.pop
  split <;> rfl

theorem pop_head (t : Topic) (item : MsgPtr) (rest : List MsgPtr)
    (hw : t.waiting = false) (hq : t.Queue = item :: rest) :
    t.pop.1 = PopResult.returned (item.setState MSG_DEQUEUED) ∧
    t.pop.2.Queue = writeState item.addr MSG_DEQUEUED rest := by
  have hs := waiting_false t hw
  rw [hq] at hs
  rw [pop_cons t item rest hs]
  exact ⟨rfl, rfl⟩

theorem pop_returned (t : Topic) (m : MsgPtr) (h : t.pop.1 = PopResult.returned m) :
    ∃ item, t.Queue.head? = some item ∧ m = item.setState MSG_DEQUEUED := by
  cases hs : t.sync with
  | parked k =>
    have : t.pop = (PopResult.blocked, { t with sync := Sync.parked (k + 1) }) := by
      simp only [Topic.pop, hs]
    rw [this] at h
    cases h
  | idle q =>
    cases q with
    | nil =>
      have : t.pop = (PopResult.blocked, { t with sync := Sync.parked 0 }) := by
        simp only [Topic.pop, hs]
      rw [this] at h
      cases h
    | cons item rest =>
      rw [pop_cons t item rest hs] at h
      simp only [PopResult.returned.injEq] at h
      refine ⟨item, ?_, h.symm⟩
      unfold Topic.Queue
      rw [hs]
      rfl

/-- C6 as stated fails: message 1 is stored with State `MSG_ENQUEUED` and
`FinishMessage 1` stores it with State `MSG_FINISHED`, a step from enqueued
straight to finished; message 3 is stored with State `MSG_FINISHED` and
`PushMessage` on a message object with that ID and State stores it, and
queues it, with State `MSG_ENQUEUED`, a finished message that moves again. -/
theorem C6_counterexample :
    sampleTopic.store.stateOf 1 = some MSG_ENQUEUED ∧
    (sampleTopic.FinishMessage 1).1 = none ∧
    (sampleTopic.FinishMessage 1).2.store.stateOf 1 = some MSG_FINISHED ∧
    sampleTopic.store.stateOf 3 = some MSG_FINISHED ∧
    ptrC.obj.State = MSG_FINISHED ∧
    (sampleTopic.PushMessage ptrC).store.stateOf 3 = some MSG_ENQUEUED ∧
    (sampleTopic.PushMessage ptrC).Queue = [ptrC.setState MSG_ENQUEUED] := by
  decide

/-- C6, amended: what each operation does to States, and that it does nothing
else to them.

`PushMessage msg` marks `msg` as `MSG_ENQUEUED` whatever its State was and
queues it (hands it over, with a consumer waiting) so marked; when the Put
succeeds the stored State of its ID is `MSG_ENQUEUED` afterwards, whatever it
was; when the Put fails no stored State changes; the stored State of another
ID never changes.

`pop`, on a queue with head `item` and nobody parked, returns `item` marked
`MSG_DEQUEUED` whatever its State was, the mark showing in every other queue
entry for the same object; it changes nothing in the store.  In a run from a
new topic in which no `PushMessage` is given an object that is in the queue,
the message `pop` returns was `MSG_ENQUEUED` at the head of the queue, and a
message received over `waitingCh` was sent as `MSG_ENQUEUED` and is returned
as `MSG_DEQUEUED`.

`FinishMessage id`, when the lookup and the Put succeed, returns no error and
the stored State of `id` is `MSG_FINISHED` afterwards, whatever it was; when
it returns an error no stored State changes; the stored State of another ID
never changes.

`PushPendingMsgsInWorker` changes a stored State only from `MSG_DEQUEUED` to
`MSG_ENQUEUED`, and when the assignments can be read and Put succeeds it does
so for every message that an assignment names and that is stored as
`MSG_DEQUEUED`. -/
theorem C6_state_changes :
    (∀ (t : Topic) (msg : MsgPtr),
      (msg.setState MSG_ENQUEUED).obj.State = MSG_ENQUEUED ∧
      (t.waiting = false →
        (t.PushMessage msg).Queue =
          writeState msg.addr MSG_ENQUEUED t.Queue ++ [msg.setState MSG_ENQUEUED]) ∧
      (t.waiting = true →
        (t.PushMessage msg).handedOff = t.handedOff ++ [msg.setState MSG_ENQUEUED]) ∧
      ((t.store.PutMessage { msg.obj with State := MSG_ENQUEUED }).1 = none →
        (t.PushMessage msg).store.stateOf msg.obj.ID = some MSG_ENQUEUED) ∧
      ((t.store.PutMessage { msg.obj with State := MSG_ENQUEUED }).1 ≠ none →
        ∀ id, (t.PushMessage msg).store.stateOf id = t.store.stateOf id) ∧
      (∀ id, id ≠ msg.obj.ID →
        (t.PushMessage msg).store.stateOf id = t.store.stateOf id)) ∧
    (∀ (t : Topic) (item : MsgPtr) (rest : List MsgPtr),
      t.waiting = false → t.Queue = item :: rest →
      t.pop.1 = PopResult.returned (item.setState MSG_DEQUEUED) ∧
      (item.setState MSG_DEQUEUED).obj.State = MSG_DEQUEUED ∧
      t.pop.2.Queue = writeState item.addr MSG_DEQUEUED rest) ∧
    (∀ t : Topic, t.pop.2.store = t.store) ∧
    (∀ (name : String) (pendingTimeout : Nat) (store : Store) (ops : List Op) (m : MsgPtr),
      noRepush (NewTopic name pendingTimeout store) ops = true →
      ((NewTopic name pendingTimeout store).run ops).pop.1 = PopResult.returned m →
      ∃ item, ((NewTopic name pendingTimeout store).run ops).Queue.head? = some item ∧
        item.obj.State = MSG_ENQUEUED ∧ m = item.setState MSG_DEQUEUED ∧
        m.obj.State = MSG_DEQUEUED) ∧
    (∀ (name : String) (pendingTimeout : Nat) (store : Store) (ops : List Op),
      noRepush (NewTopic name pendingTimeout store) ops = true →
      ∀ item ∈ ((NewTopic name pendingTimeout store).run ops).handedOff,
        item.obj.State = MSG_ENQUEUED ∧ (Topic.popReceive item).obj.State = MSG_DEQUEUED) ∧
    (∀ (t : Topic) (id : MessageID),
      (∀ m, t.store.GetMessage id = Except.ok m →
        (t.store.PutMessage { m with State := MSG_FINISHED }).1 = none →
        (t.FinishMessage id).1 = none ∧
        (t.FinishMessage id).2.store.stateOf id = some MSG_FINISHED) ∧
      ((t.FinishMessage id).1 ≠ none →
        ∀ id1, (t.FinishMessage id).2.store.stateOf id1 = t.store.stateOf id1) ∧
      (∀ id1, id1 ≠ id →
        (t.FinishMessage id).2.store.stateOf id1 = t.store.stateOf id1)) ∧
    (∀ (t : Topic) (workerId : String),
      (∀ id,
        (t.PushPendingMsgsInWorker workerId).1.store.stateOf id = t.store.stateOf id ∨
        (t.store.stateOf id = some MSG_DEQUEUED ∧
          (t.PushPendingMsgsInWorker workerId).1.store.stateOf id = some MSG_ENQUEUED)) ∧
      (∀ pms, t.store.GetPendingMsgsInWorker workerId = Except.ok pms →
        t.store.faults.put = none →
        ∀ pm ∈ pms, t.store.stateOf pm.MessageID = some MSG_DEQUEUED →
          (t.PushPendingMsgsInWorker workerId).1.store.stateOf pm.MessageID
            = some MSG_ENQUEUED)) := by
  refine ⟨fun t msg => ⟨rfl, fun hw => ?_, fun hw => (PushMessage_waiting t msg hw).1,
      PushMessage_stateOf_ok t msg, fun hne id => ?_, PushMessage_stateOf_other t msg⟩,
    fun t item rest hw hq => ?_, pop_store, ?_, ?_,
    fun t id => ⟨FinishMessage_stateOf_ok t id, FinishMessage_stateOf_fail t id,
      fun id1 => FinishMessage_stateOf_other t id id1⟩,
    fun t workerId => ⟨PushPendingMsgsInWorker_stateOf t workerId,
      fun pms hpend hput pm hpm hs =>
        PushPendingMsgsInWorker_stateOf_ok t workerId pms hpend hput pm hpm hs⟩⟩
  · unfold Topic.Queue
    rw [(PushMessage_not_waiting t msg hw).1]
    rfl
  · cases he : (t.store.PutMessage { msg.obj with State := MSG_ENQUEUED }).1 with
    | none => exact absurd he hne
    | some e => exact PushMessage_stateOf_fail t msg e he id
  · obtain ⟨a, b⟩ := pop_head t item rest hw hq
    exact ⟨a, rfl, b⟩
  · intro name pendingTimeout store ops m hrun h
    have hinv := (run_allEnqueued ops _ (newTopic_allEnqueued name pendingTimeout store) hrun).1
    obtain ⟨item, hhead, hm⟩ := pop_returned _ m h
    refine ⟨item, hhead, hinv item (List.mem_of_mem_head? hhead), hm, ?_⟩
    rw [hm]
    rfl
  · intro name pendingTimeout store ops hrun item hitem
    exact ⟨(run_allEnqueued ops _ (newTopic_allEnqueued name pendingTimeout store) hrun).2.1
      item hitem, rfl⟩

end server
